import Mathlib

set_option maxRecDepth 100000

/-!
Verification development for the Jira AI triage service.

The development shallowly embeds the response-parsing and orchestration core
of the service (`api/triage.js` and its revised handler): JSON values, the
`parseAIResponse` text-to-analysis parser with its markdown-fence extraction
and brace-repair steps, the `calculateOverallPriority` weighted calculator,
the deterministic `estimateEffort` and `classifyBugOrFeature` classifiers,
and the two-provider fallback dispatchers with the surrounding orchestration.

Modelling conventions:
* JavaScript strings are sequences of characters (`List Char`).
* JavaScript numbers are modelled as exact rationals; the decimal weight
  literals of the source are represented by the rationals they denote, and
  `NaN` is a distinguished value `JVal.jnan`.  Numeric coercion of strings,
  arrays and plain objects is modelled as `NaN`.
* Absent object properties are `Option.none`; JavaScript truthiness is the
  function `jsTruthy` below.
* Code that can throw returns `Option`; the handler-level `try`/`catch`
  blocks map a thrown exception to `none`.  A strict-mode property
  assignment onto a non-object value is modelled as a failure.
-/

/- JSON-like runtime values: null, NaN, booleans, numbers, strings,
arrays and objects.  `JArr` and `JObj` are the spine types of array
elements and of ordered object fields. -/
mutual
inductive JVal where
  | jnull : JVal
  | jnan : JVal
  | jbool (b : Bool) : JVal
  | jnum (q : ℚ) : JVal
  | jstr (s : List Char) : JVal
  | jarr (xs : JArr) : JVal
  | jobj (fs : JObj) : JVal
deriving DecidableEq
/-- Spine of a JSON array. -/
inductive JArr where
  | nil : JArr
  | cons (v : JVal) (tl : JArr) : JArr
deriving DecidableEq
/-- Ordered field list of a JSON object (later fields shadow earlier
ones on lookup, as after `JSON.parse`). -/
inductive JObj where
  | nil : JObj
  | cons (k : List Char) (v : JVal) (tl : JObj) : JObj
deriving DecidableEq
end

open JVal

/-- Characters of a string literal. -/
def sChars (s : String) : List Char := s.data

/-- JavaScript truthiness of a value. -/
def jsTruthy : JVal → Bool
  | jnull => false
  | jnan => false
  | jbool b => b
  | jnum q => q ≠ 0
  | jstr s => !s.isEmpty
  | jarr _ => true
  | jobj _ => true

/-- Truthiness of a possibly-absent value (`undefined` is falsy). -/
def truthyOpt : Option JVal → Bool
  | some v => jsTruthy v
  | none => false

/-- Field lookup in an object spine; the last binding of a key wins,
matching the result of `JSON.parse` on duplicate keys. -/
def jobjGet : JObj → List Char → Option JVal
  | .nil, _ => none
  | .cons k v t, key =>
    match jobjGet t key with
    | some r => some r
    | none => if k = key then some v else none

/-- Property read `v[key]`: only objects carry fields here. -/
def jget : JVal → List Char → Option JVal
  | jobj fs, k => jobjGet fs k
  | _, _ => none

/-- Two-step property read `v[k1][k2]`. -/
def jget2 (v : JVal) (k1 k2 : List Char) : Option JVal :=
  (jget v k1).bind (fun w => jget w k2)

/-- Whether an object spine binds a key. -/
def jobjHas : JObj → List Char → Bool
  | .nil, _ => false
  | .cons k _ t, key => k = key || jobjHas t key

/-- Replace every binding of `key` by `v`, keeping positions. -/
def jobjReplace : JObj → List Char → JVal → JObj
  | .nil, _, _ => .nil
  | .cons k w t, key, v => .cons k (if k = key then v else w) (jobjReplace t key v)

/-- Append a fresh binding at the end of the spine. -/
def jobjAppend : JObj → List Char → JVal → JObj
  | .nil, key, v => .cons key v .nil
  | .cons k w t, key, v => .cons k w (jobjAppend t key v)

/-- Property write on an object spine: update in place when the key is
bound, append otherwise. -/
def jobjSet (fs : JObj) (key : List Char) (v : JVal) : JObj :=
  if jobjHas fs key then jobjReplace fs key v else jobjAppend fs key v

/-- Property assignment `v[key] = w`.  On an object it updates or adds
the field; on any other value the strict-mode assignment is modelled as
a failure (the enclosing handler catches the exception). -/
def jset : JVal → List Char → JVal → Option JVal
  | jobj fs, key, v => some (jobj (jobjSet fs key v))
  | _, _, _ => none

/-- Numeric coercion used by the arithmetic of the calculator.  Strings,
arrays and plain objects are coerced to `NaN` in this model (`none`);
booleans and numbers follow JavaScript. -/
def toNumberJS : JVal → Option ℚ
  | jnull => some 0
  | jnan => none
  | jbool b => some (if b then 1 else 0)
  | jnum q => some q
  | jstr _ => none
  | jarr _ => none
  | jobj _ => none

/-- `Math.round`: round half toward positive infinity.  Written with
rational `num`/`den` division so that it evaluates by reduction. -/
def jsRound (q : ℚ) : ℤ := (q + 1/2).num / ((q + 1/2).den : ℤ)

/-- Key constants of the analysis shape. -/
def keyScores : List Char := sChars "scores"

/-- Key of the priority recommendation field. -/
def keyPriorityRec : List Char := sChars "priority_recommendation"

/-- Key of the overall priority field. -/
def keyOverall : List Char := sChars "overall_priority"

/-- Key of the business impact score. -/
def keyBI : List Char := sChars "business_impact"

/-- Key of the strategic fit score. -/
def keySF : List Char := sChars "strategic_fit"

/-- Key of the cross-client value score. -/
def keyCCV : List Char := sChars "cross_client_value"

/-- Key of the effort score. -/
def keyEffScore : List Char := sChars "effort_score"

/-- Key of the effort size. -/
def keyEffSize : List Char := sChars "effort_size"

/-- The `effortScores` lookup table of `calculateOverallPriority`,
keyed by effort size. -/
def effortSizeScore (s : List Char) : Option ℚ :=
  if s = sChars "XS" then some 100
  else if s = sChars "S" then some 80
  else if s = sChars "M" then some 60
  else if s = sChars "L" then some 40
  else if s = sChars "XL" then some 20
  else none

/-- Value of `effortScores[scores.effort_size] || 50`: a non-string or
unrecognised size selects no table entry and falls back to 50. -/
def effortFallback (scores : JVal) : ℚ :=
  match jget scores keyEffSize with
  | some (jstr s) =>
    match effortSizeScore s with
    | some v => if v = 0 then 50 else v
    | none => 50
  | _ => 50

/-- Value of `scores.effort_score || effortScores[scores.effort_size] || 50`:
a truthy `effort_score` is used as-is (then coerced by the arithmetic),
a falsy one falls through to the table. -/
def effortScoreVal (scores : JVal) : Option ℚ :=
  match jget scores keyEffScore with
  | some v => if jsTruthy v then toNumberJS v else some (effortFallback scores)
  | none => some (effortFallback scores)

/-- Value of `(scores[k] || 0)` coerced to a number. -/
def scoreTerm (scores : JVal) (k : List Char) : Option ℚ :=
  match jget scores k with
  | some v => if jsTruthy v then toNumberJS v else some 0
  | none => some 0

/-- The `calculateOverallPriority` function of `api/triage.js`: weighted
average of the three impact scores and the effort score, rounded with
`Math.round`.  `none` is the `NaN` outcome of coercing a non-numeric
operand. -/
def calculateOverallPriority (scores : JVal) : Option ℤ :=
  match scoreTerm scores keyBI, scoreTerm scores keySF,
        scoreTerm scores keyCCV, effortScoreVal scores with
  | some b, some s, some c, some e =>
    some (jsRound (b * (35/100) + s * (25/100) + c * (25/100) + e * (15/100)))
  | _, _, _, _ => none

/-- The number assigned by `parsed.scores.overall_priority = ...`:
the rounded value, or `NaN` when the arithmetic produced `NaN`. -/
def numOrNan : Option ℤ → JVal
  | some n => jnum (n : ℚ)
  | none => jnan

/-- Prepend a field when the optional value is present. -/
def consOpt (k : List Char) (v : Option JVal) (t : JObj) : JObj :=
  match v with
  | some w => JObj.cons k w t
  | none => t

/-- Build a scores object with exactly the given optional fields, in the
shape the backend is instructed to produce. -/
def mkScores (bi sf ccv es : Option ℚ) (esize : Option (List Char)) : JVal :=
  jobj
    (consOpt keyBI (bi.map jnum)
      (consOpt keySF (sf.map jnum)
        (consOpt keyCCV (ccv.map jnum)
          (consOpt keyEffScore (es.map jnum)
            (consOpt keyEffSize (esize.map jstr) JObj.nil)))))

/-! ### Character and substring utilities -/

/-- Whitespace skipped by the JSON reader and by `trim`. -/
def isWsChar (c : Char) : Bool := c = ' ' || c = '\t' || c = '\n' || c = '\r'

/-- Drop leading whitespace. -/
def skipWs (cs : List Char) : List Char := cs.dropWhile isWsChar

/-- The `String.prototype.trim` of the source: strip whitespace from both
ends. -/
def trimChars (cs : List Char) : List Char :=
  ((cs.dropWhile isWsChar).reverse.dropWhile isWsChar).reverse

/-- Decimal digit test. -/
def isDigitChar (c : Char) : Bool := '0' ≤ c && c ≤ '9'

/-- Split a character sequence at the first occurrence of `sep`,
returning the part before and the part after the separator. -/
def breakSub (sep : List Char) : List Char → Option (List Char × List Char)
  | [] => if sep.isPrefixOf ([] : List Char) then some ([], []) else none
  | c :: t =>
    if sep.isPrefixOf (c :: t) then some ([], (c :: t).drop sep.length)
    else
      match breakSub sep t with
      | some (a, b) => some (c :: a, b)
      | none => none

/-- The `String.prototype.includes` test. -/
def hasSub (sep cs : List Char) : Bool := (breakSub sep cs).isSome

/-- Fuel-indexed worker for `String.prototype.split`. -/
def splitOnSubF (sep : List Char) : ℕ → List Char → List (List Char)
  | 0, s => [s]
  | f + 1, s =>
    match breakSub sep s with
    | none => [s]
    | some (a, b) => a :: splitOnSubF sep f b

/-- The `String.prototype.split` of the source (`sep` is nonempty in every
use; the fuel is sufficient because each step removes the separator). -/
def splitOnSub (sep s : List Char) : List (List Char) :=
  splitOnSubF sep (s.length + 1) s

/-! ### Markdown-fence extraction and brace repair of `parseAIResponse` -/

/-- Opening marker of a JSON-tagged fenced block. -/
def fenceJson : List Char := sChars "```json"

/-- Fence marker. -/
def fenceTicks : List Char := sChars "```"

/-- Extraction step of `parseAIResponse`: take the body of a ` ```json `
block when present, else the body of the first fenced block, else the raw
text. -/
def extractJsonStr (text : List Char) : List Char :=
  if hasSub fenceJson text then
    (splitOnSub fenceTicks ((splitOnSub fenceJson text).getD 1 [])).getD 0 []
  else if hasSub fenceTicks text then
    (splitOnSub fenceTicks ((splitOnSub fenceTicks text).getD 1 [])).getD 0 []
  else text

/-- Index of the last `'}'`, as `String.prototype.lastIndexOf` computes it. -/
def lastBraceIdx (cs : List Char) : Option ℕ :=
  match List.findIdx? (fun c => c = '}') cs.reverse with
  | some j => some (cs.length - 1 - j)
  | none => none

/-- Backward scan of the repair loop: walk the characters before the last
closing brace (given reversed), updating the brace counter, and report
whether the counter ever reaches zero. -/
def scanBack : List Char → ℤ → Bool
  | [], _ => false
  | c :: rest, n =>
    let n1 := if c = '}' then n + 1 else n
    let n2 := if c = '{' then n1 - 1 else n1
    if n2 = 0 then true else scanBack rest n2

/-- Brace-repair step of `parseAIResponse`: when open braces outnumber
close braces, find the last closing brace, scan backward for a matching
opening brace, and on success truncate everything after that last closing
brace. -/
def repairBraces (cs : List Char) : List Char :=
  if cs.count '}' < cs.count '{' then
    match lastBraceIdx cs with
    | some i =>
      if 0 < i then
        if scanBack (cs.take i).reverse 1 then cs.take (i + 1) else cs
      else cs
    | none => cs
  else cs

/-! ### The JSON reader (model of `JSON.parse`) -/

/-- Single-character escapes of JSON strings. -/
def escCharVal (e : Char) : Option Char :=
  if e = '"' then some '"'
  else if e = '\\' then some '\\'
  else if e = '/' then some '/'
  else if e = 'b' then some (Char.ofNat 8)
  else if e = 'f' then some (Char.ofNat 12)
  else if e = 'n' then some (Char.ofNat 10)
  else if e = 'r' then some (Char.ofNat 13)
  else if e = 't' then some (Char.ofNat 9)
  else none

/-- Hexadecimal digit value. -/
def hexVal (c : Char) : Option ℕ :=
  if '0' ≤ c ∧ c ≤ '9' then some (c.toNat - 48)
  else if 'a' ≤ c ∧ c ≤ 'f' then some (c.toNat - 87)
  else if 'A' ≤ c ∧ c ≤ 'F' then some (c.toNat - 55)
  else none

/-- Read a JSON string body (after the opening quote) up to and including
the closing quote, decoding escapes; raw control characters are refused. -/
def parseStringBody : List Char → Option (List Char × List Char)
  | [] => none
  | '"' :: rest => some ([], rest)
  | '\\' :: 'u' :: h1 :: h2 :: h3 :: h4 :: r3 =>
    match hexVal h1, hexVal h2, hexVal h3, hexVal h4 with
    | some a, some b, some c2, some d =>
      match parseStringBody r3 with
      | some (s, r) => some (Char.ofNat (4096 * a + 256 * b + 16 * c2 + d) :: s, r)
      | none => none
    | _, _, _, _ => none
  | '\\' :: e :: rest2 =>
    match escCharVal e with
    | some d =>
      match parseStringBody rest2 with
      | some (s, r) => some (d :: s, r)
      | none => none
    | none => none
  | '\\' :: [] => none
  | c :: rest =>
    if c.toNat < 32 then none
    else
      match parseStringBody rest with
      | some (s, r) => some (c :: s, r)
      | none => none

/-- Value of a big-endian list of decimal digit characters. -/
def digitsVal (ds : List Char) : ℕ := ds.foldl (fun a c => 10 * a + (c.toNat - 48)) 0

/-- Read the digits of an exponent and apply it. -/
def parseExpDigits (q : ℚ) (neg : Bool) (t : List Char) : Option (ℚ × List Char) :=
  let ds := t.takeWhile isDigitChar
  if ds.isEmpty then none
  else
    let e : ℤ := if neg then -(digitsVal ds : ℤ) else (digitsVal ds : ℤ)
    some (q * (10 : ℚ) ^ e, t.dropWhile isDigitChar)

/-- Read an optional exponent part of a JSON number. -/
def parseExpPart (q : ℚ) (cs : List Char) : Option (ℚ × List Char) :=
  match cs with
  | [] => some (q, [])
  | c :: t =>
    if c = 'e' ∨ c = 'E' then
      match t with
      | '+' :: t2 => parseExpDigits q false t2
      | '-' :: t2 => parseExpDigits q true t2
      | t2 => parseExpDigits q false t2
    else some (q, c :: t)

/-- Read an optional fraction part of a JSON number. -/
def parseFracPart (n : ℕ) (cs : List Char) : Option (ℚ × List Char) :=
  match cs with
  | [] => parseExpPart (n : ℚ) []
  | c :: t =>
    if c = '.' then
      let ds := t.takeWhile isDigitChar
      if ds.isEmpty then none
      else parseExpPart ((n : ℚ) + (digitsVal ds : ℚ) / (10 : ℚ) ^ ds.length)
        (t.dropWhile isDigitChar)
    else parseExpPart (n : ℚ) (c :: t)

/-- Read the unsigned part of a JSON number: at least one digit, then an
optional fraction and exponent. -/
def parseNumberCore (t : List Char) : Option (ℚ × List Char) :=
  let ds := t.takeWhile isDigitChar
  if ds.isEmpty then none
  else parseFracPart (digitsVal ds) (t.dropWhile isDigitChar)

/-- Read a JSON number, with its optional leading minus sign. -/
def parseNumber (cs : List Char) : Option (ℚ × List Char) :=
  match cs with
  | [] => none
  | c :: t =>
    if c = '-' then
      match parseNumberCore t with
      | some (q, rest) => some (-q, rest)
      | none => none
    else parseNumberCore (c :: t)

mutual
/-- Read one JSON value; the fuel bounds the nesting of recursive
descent and is sized generously by the caller. -/
def parseVal : ℕ → List Char → Option (JVal × List Char)
  | 0, _ => none
  | f + 1, cs =>
    match skipWs cs with
    | '{' :: r =>
      match skipWs r with
      | '}' :: r2 => some (jobj .nil, r2)
      | r2 =>
        match parseFields f r2 with
        | some (fs, rest) => some (jobj fs, rest)
        | none => none
    | '[' :: r =>
      match skipWs r with
      | ']' :: r2 => some (jarr .nil, r2)
      | r2 =>
        match parseItems f r2 with
        | some (xs, rest) => some (jarr xs, rest)
        | none => none
    | '"' :: r =>
      match parseStringBody r with
      | some (s, rest) => some (jstr s, rest)
      | none => none
    | 't' :: 'r' :: 'u' :: 'e' :: r => some (jbool true, r)
    | 'f' :: 'a' :: 'l' :: 's' :: 'e' :: r => some (jbool false, r)
    | 'n' :: 'u' :: 'l' :: 'l' :: r => some (jnull, r)
    | c :: r =>
      if c = '-' || isDigitChar c then
        match parseNumber (c :: r) with
        | some (q, rest) => some (jnum q, rest)
        | none => none
      else none
    | [] => none
/-- Read the fields of an object, positioned at the first key. -/
def parseFields : ℕ → List Char → Option (JObj × List Char)
  | 0, _ => none
  | f + 1, cs =>
    match skipWs cs with
    | '"' :: r =>
      match parseStringBody r with
      | some (k, rest) =>
        match skipWs rest with
        | ':' :: r2 =>
          match parseVal f r2 with
          | some (v, rest2) =>
            match skipWs rest2 with
            | ',' :: r3 =>
              match parseFields f r3 with
              | some (fs, rest3) => some (.cons k v fs, rest3)
              | none => none
            | '}' :: r3 => some (.cons k v .nil, r3)
            | _ => none
          | none => none
        | _ => none
      | none => none
    | _ => none
/-- Read the elements of an array, positioned at the first element. -/
def parseItems : ℕ → List Char → Option (JArr × List Char)
  | 0, _ => none
  | f + 1, cs =>
    match parseVal f cs with
    | some (v, rest) =>
      match skipWs rest with
      | ',' :: r2 =>
        match parseItems f r2 with
        | some (xs, rest2) => some (.cons v xs, rest2)
        | none => none
      | ']' :: r2 => some (.cons v .nil, r2)
      | _ => none
    | none => none
end

/-- Model of `JSON.parse`: read one value and require only trailing
whitespace after it; any failure is the thrown `SyntaxError`. -/
def parseJson (cs : List Char) : Option JVal :=
  match parseVal (cs.length + 1) cs with
  | some (v, rest) => if (skipWs rest).isEmpty then some v else none
  | none => none

/-! ### Validation and priority injection of `parseAIResponse` -/

/-- Validation and injection step of `parseAIResponse`: require truthy
`scores` and `priority_recommendation` fields, and when
`scores.overall_priority` is falsy, compute it with
`calculateOverallPriority` and assign it; a failing assignment is the
caught strict-mode exception. -/
def validateAndInject (parsed : JVal) : Option JVal :=
  if !truthyOpt (jget parsed keyScores) || !truthyOpt (jget parsed keyPriorityRec) then
    none
  else if truthyOpt ((jget parsed keyScores).bind (fun sv => jget sv keyOverall)) then
    some parsed
  else
    match jget parsed keyScores with
    | some sv =>
      match jset sv keyOverall (numOrNan (calculateOverallPriority sv)) with
      | some sv2 =>
        match jset parsed keyScores sv2 with
        | some p2 => some p2
        | none => none
      | none => none
    | none => none

/-- The `parseAIResponse` function of the source: extract a JSON-looking
body from the raw model text, trim it, repair unbalanced braces, parse it,
validate the required fields and inject a missing overall priority; every
failure yields `null`. -/
def parseAIResponse (text : List Char) : Option JVal :=
  match parseJson (repairBraces (trimChars (extractJsonStr text))) with
  | some v => validateAndInject v
  | none => none

/-! ### Ticket model and deterministic classifiers -/

/-- The ticket fields consumed by the deterministic helpers. -/
structure Issue where
  summary : Option String
  description : Option String
  components : List String
  labels : List String

/-- Lower-cased characters of a string (`String.prototype.toLowerCase`). -/
def lowerChars (s : String) : List Char := s.data.map Char.toLower

/-- Lower-cased summary with the `|| ''` default. -/
def issueSummary (i : Issue) : List Char := lowerChars (i.summary.getD "")

/-- Lower-cased description with the `|| ''` default. -/
def issueDescription (i : Issue) : List Char := lowerChars (i.description.getD "")

/-- Lower-cased component names. -/
def issueComponents (i : Issue) : List (List Char) := i.components.map lowerChars

/-- Lower-cased labels. -/
def issueLabels (i : Issue) : List (List Char) := i.labels.map lowerChars

/-- Test of a two-stem `a.*b` regular expression (every pattern of the
source has this shape; a trailing `.*` is the empty second stem): some
occurrence of `a` is followed, anywhere later, by an occurrence of `b`. -/
def match2 (a b : List Char) : List Char → Bool
  | [] => a.isPrefixOf ([] : List Char) && hasSub b []
  | c :: t => (a.isPrefixOf (c :: t) && hasSub b ((c :: t).drop a.length)) || match2 a b t

/-- The five effort buckets. -/
inductive EffSize where
  | XS : EffSize
  | S : EffSize
  | M : EffSize
  | L : EffSize
  | XL : EffSize
deriving DecidableEq

/-- Keyword list, pattern list, numeric score and description of one
effort bucket of `estimateEffort`. -/
structure EffortIndicators where
  keywords : List (List Char)
  patterns : List (List Char × List Char)
  score : ℕ
  descr : List Char

/-- Indicators of the XS bucket. -/
def xsIndicators : EffortIndicators where
  keywords := [sChars "config", sChars "setting", sChars "toggle", sChars "button",
    sChars "styling", sChars "color", sChars "text", sChars "minor", sChars "small",
    sChars "simple"]
  patterns := [(sChars "fix", sChars "button"), (sChars "change", sChars "color"),
    (sChars "update", sChars "text"), (sChars "add", sChars "toggle")]
  score := 100
  descr := sChars "1-2 weeks: Simple config/UI changes, minor bug fixes"

/-- Indicators of the S bucket. -/
def sIndicators : EffortIndicators where
  keywords := [sChars "widget", sChars "component", sChars "api", sChars "endpoint",
    sChars "integration", sChars "moderate", sChars "medium"]
  patterns := [(sChars "add", sChars "widget"), (sChars "new", sChars "api"),
    (sChars "create", sChars "component"), (sChars "integrate", sChars "service")]
  score := 80
  descr := sChars "2-4 weeks: Single service changes, new components, moderate features"

/-- Indicators of the M bucket. -/
def mIndicators : EffortIndicators where
  keywords := [sChars "dashboard", sChars "report", sChars "workflow", sChars "complex",
    sChars "multiple", sChars "major"]
  patterns := [(sChars "new", sChars "dashboard"), (sChars "create", sChars "workflow"),
    (sChars "build", sChars "report"), (sChars "multiple", sChars "services")]
  score := 60
  descr := sChars "1-2 months: Multiple service integration, complex features, major UI changes"

/-- Indicators of the L bucket. -/
def lIndicators : EffortIndicators where
  keywords := [sChars "architecture", sChars "migration", sChars "platform",
    sChars "infrastructure", sChars "large"]
  patterns := [(sChars "architectural", sChars "change"), (sChars "platform", sChars "migration"),
    (sChars "infrastructure", sChars "update")]
  score := 40
  descr := sChars "2-4 months: Architectural changes, platform migrations, complex integrations"

/-- Indicators of the XL bucket. -/
def xlIndicators : EffortIndicators where
  keywords := [sChars "rewrite", sChars "overhaul", sChars "new product",
    sChars "major platform", sChars "enterprise"]
  patterns := [(sChars "rewrite", sChars "system"), (sChars "new", sChars "product"),
    (sChars "major", sChars "overhaul"), (sChars "enterprise", sChars "feature")]
  score := 20
  descr := sChars "4+ months: Platform rewrites, major infrastructure, new product lines"

/-- Indicators of a bucket. -/
def effortIndicatorsOf : EffSize → EffortIndicators
  | .XS => xsIndicators
  | .S => sIndicators
  | .M => mIndicators
  | .L => lIndicators
  | .XL => xlIndicators

/-- Iteration order of `Object.entries(effortIndicators)`. -/
def effortOrder : List EffSize := [.XS, .S, .M, .L, .XL]

/-- Score of one bucket: 10 per keyword found in title or description,
15 per pattern matching title or description, 5 per component whose name
contains some keyword. -/
def bucketScore (sum desc : List Char) (comps : List (List Char))
    (ind : EffortIndicators) : ℕ :=
  (ind.keywords.filter (fun k => hasSub k sum || hasSub k desc)).length * 10 +
    (ind.patterns.filter (fun p => match2 p.1 p.2 sum || match2 p.1 p.2 desc)).length * 15 +
    (comps.filter (fun comp => ind.keywords.any (fun k => hasSub k comp))).length * 5

/-- Selection loop of `estimateEffort`: keep the first bucket whose score
strictly exceeds the best so far, starting from the defaults `M` and 0. -/
def pickEffort : List (EffSize × ℕ) → EffSize × ℕ → EffSize × ℕ
  | [], best => best
  | (e, s) :: t, best => pickEffort t (if best.2 < s then (e, s) else best)

/-- Override rules of `estimateEffort`, applied to the title only:
a bug or fix with minor/small words forces XS, with critical/major words
forces M; security or compliance words force S. -/
def applyOverrides (sum : List Char) (e : EffSize) : EffSize :=
  let e1 :=
    if hasSub (sChars "bug") sum || hasSub (sChars "fix") sum then
      if hasSub (sChars "minor") sum || hasSub (sChars "small") sum then EffSize.XS
      else if hasSub (sChars "critical") sum || hasSub (sChars "major") sum then EffSize.M
      else e
    else e
  if hasSub (sChars "security") sum || hasSub (sChars "compliance") sum then EffSize.S
  else e1

/-- Result of `estimateEffort` (the free-text reasoning, used only inside
the prompt string, is not modelled). -/
structure EffortEstimate where
  effort_size : EffSize
  effort_score : ℕ
  descr : List Char

/-- The `estimateEffort` function of the revised handler: score the five
buckets, select the highest-scoring one (default `M` on no signal), apply
the override rules, and attach the score and description of the bucket. -/
def estimateEffort (i : Issue) : EffortEstimate :=
  let sum := issueSummary i
  let desc := issueDescription i
  let comps := issueComponents i
  let scored := effortOrder.map (fun e => (e, bucketScore sum desc comps (effortIndicatorsOf e)))
  let chosen := applyOverrides sum (pickEffort scored (EffSize.M, 0)).1
  { effort_size := chosen
    effort_score := (effortIndicatorsOf chosen).score
    descr := (effortIndicatorsOf chosen).descr }

/-- The `classifyBugOrFeature` helper: weighted keyword (2), pattern (1)
and exact-label (3) hits for bug and for feature, ties resolved to
`Feature`. -/
def classifyBugOrFeature (i : Issue) : List Char :=
  let sum := issueSummary i
  let desc := issueDescription i
  let labs := issueLabels i
  let bugKw := [sChars "bug", sChars "fix", sChars "error", sChars "broken", sChars "issue",
    sChars "problem", sChars "crash", sChars "fail", sChars "not working", sChars "broken"]
  let featKw := [sChars "add", sChars "new", sChars "implement", sChars "create",
    sChars "build", sChars "enhance", sChars "improve", sChars "upgrade", sChars "feature"]
  let bugPat := [(sChars "fix", ([] : List Char)), (sChars "broken", ([] : List Char)),
    (sChars "not", sChars "working"), (sChars "error", ([] : List Char)),
    (sChars "bug", ([] : List Char))]
  let featPat := [(sChars "add", ([] : List Char)), (sChars "new", ([] : List Char)),
    (sChars "implement", ([] : List Char)), (sChars "create", ([] : List Char)),
    (sChars "build", ([] : List Char))]
  let bugScore :=
    (bugKw.filter (fun k => hasSub k sum || hasSub k desc)).length * 2 +
      (bugPat.filter (fun p => match2 p.1 p.2 sum || match2 p.1 p.2 desc)).length +
      (if labs.contains (sChars "bug") || labs.contains (sChars "defect") then 3 else 0)
  let featScore :=
    (featKw.filter (fun k => hasSub k sum || hasSub k desc)).length * 2 +
      (featPat.filter (fun p => match2 p.1 p.2 sum || match2 p.1 p.2 desc)).length +
      (if labs.contains (sChars "enhancement") || labs.contains (sChars "feature") then 3 else 0)
  if featScore < bugScore then sChars "Bug" else sChars "Feature"

/-! ### Backend dispatchers and orchestration -/

/-- Outcome of one provider in a dispatch: the client was never
initialised, the call threw, or the call returned raw text. -/
inductive ProvResult where
  | absent : ProvResult
  | threw : ProvResult
  | ok (text : List Char) : ProvResult

/-- Provider identity, recorded when a call is issued. -/
inductive Prov where
  | gemini : Prov
  | claude : Prov
deriving DecidableEq

/-- Result of the priority dispatch: the accepted analysis (if any), the
`modelUsed` marker, and the calls that were issued. -/
structure PriorityDispatch where
  analysis : Option JVal
  modelUsed : List Char
  attempts : List Prov

/-- Claude leg of `analyzePriority`: attempted only when the client
exists; its parsed response is accepted only with truthy scores. -/
def priorityClaudeStep (c : ProvResult) (att : List Prov) : PriorityDispatch :=
  match c with
  | .absent => ⟨none, sChars "None - Both models failed", att⟩
  | .threw => ⟨none, sChars "None - Both models failed", att ++ [.claude]⟩
  | .ok t =>
    match parseAIResponse t with
    | some parsed =>
      if truthyOpt (jget parsed keyScores) then
        ⟨some parsed, sChars "Claude Sonnet 3.5", att ++ [.claude]⟩
      else ⟨none, sChars "None - Both models failed", att ++ [.claude]⟩
    | none => ⟨none, sChars "None - Both models failed", att ++ [.claude]⟩

/-- The provider-attempt core of `analyzePriority`: try Gemini, fall
through to Claude on a thrown call or a parsed-but-invalid response, and
report failure when both legs fail.  (The product-context precheck of the
source always passes: `getProductDetails` returns an object in every
branch of its switch, including the default.) -/
def analyzePriority (g c : ProvResult) : PriorityDispatch :=
  match g with
  | .absent => priorityClaudeStep c []
  | .threw => priorityClaudeStep c [.gemini]
  | .ok t =>
    match parseAIResponse t with
    | some parsed =>
      if truthyOpt (jget parsed keyScores) then
        ⟨some parsed, sChars "Gemini Flash 2.0", [.gemini]⟩
      else priorityClaudeStep c [.gemini]
    | none => priorityClaudeStep c [.gemini]

/-- Result of the theme dispatch. -/
structure ThemeDispatch where
  theme : List Char
  modelUsed : List Char
  attempts : List Prov

/-- Claude leg of `classifyTheme`: any returned text is accepted after
trimming; when no leg succeeds the sentinel theme and failure marker are
returned. -/
def themeClaudeStep (c : ProvResult) (att : List Prov) : ThemeDispatch :=
  match c with
  | .absent => ⟨sChars "THEME NOT IDENTIFIED", sChars "None - Both models failed", att⟩
  | .threw => ⟨sChars "THEME NOT IDENTIFIED", sChars "None - Both models failed", att ++ [.claude]⟩
  | .ok t => ⟨trimChars t, sChars "Claude Sonnet 3.5", att ++ [.claude]⟩

/-- The provider-attempt core of `classifyTheme`: try Gemini and accept
its trimmed text; on a thrown call (or absent client) fall through to
Claude. -/
def classifyTheme (g c : ProvResult) : ThemeDispatch :=
  match g with
  | .absent => themeClaudeStep c []
  | .threw => themeClaudeStep c [.gemini]
  | .ok t => ⟨trimChars t, sChars "Gemini Flash 2.0", [.gemini]⟩

/-- The mutable `result` record assembled by
`processTicketWithFullTriage`. -/
structure TriageResult where
  analysis : Option JVal
  theme : Option (List Char)
  themeModel : Option (List Char)
  priorityModel : Option (List Char)

/-- The `processTicketWithFullTriage` orchestrator, parameterised by the
provider outcomes of the theme dispatch (`tg`, `tc`) and of the priority
dispatch (`pg`, `pc`): run both dispatches in order; keep the analysis
only when it exists with truthy scores, else leave it null and mark the
priority model `Failed`.  Its `catch` returns the partial record, so the
function is total. -/
def processTicketWithFullTriage (tg tc pg pc : ProvResult) : TriageResult :=
  let th := classifyTheme tg tc
  let pr := analyzePriority pg pc
  match pr.analysis with
  | some a =>
    if truthyOpt (jget a keyScores) then
      ⟨some a, some th.theme, some th.modelUsed, some pr.modelUsed⟩
    else ⟨none, some th.theme, some th.modelUsed, some (sChars "Failed")⟩
  | none => ⟨none, some th.theme, some th.modelUsed, some (sChars "Failed")⟩

/-- Value of `x ?? d`: only null and undefined select the default. -/
def nullishD (o : Option JVal) (d : JVal) : JVal :=
  match o with
  | some jnull => d
  | some v => v
  | none => d

/-- Value of `x || d` for a possibly-absent `x`. -/
def jsOrD (o : Option JVal) (d : JVal) : JVal :=
  match o with
  | some v => if jsTruthy v then v else d
  | none => d

/-- Top-level fields of the webhook response assembled by the handler. -/
structure HandlerResponse where
  recommendation : JVal
  classification : List Char
  themes : List (List Char)
  importance : JVal
  confidence : ℚ

/-- Response assembly of the handler (`recommendation`,
`classification`, `themes`, `importance`, `confidence`): defaults applied
with `||` and `??` exactly as in the source. -/
def handlerResponse (issue : Issue) (tr : TriageResult) : HandlerResponse where
  recommendation := jsOrD (tr.analysis.bind (fun a => jget a keyPriorityRec))
    (jstr (sChars "On Hold"))
  classification := classifyBugOrFeature issue
  themes :=
    match tr.theme with
    | some th => if th.isEmpty then [] else [th]
    | none => []
  importance := nullishD ((tr.analysis.bind (fun a => jget a keyScores)).bind
    (fun s => jget s keyOverall)) (jnum 0)
  confidence := match tr.analysis with | some _ => 3/4 | none => 0

/-! ### Serialisation (model of `JSON.stringify`) -/

/-- The backtick character. -/
def btChar : Char := Char.ofNat 96

/-- Decimal digit character of a digit value. -/
def toDigitChar (d : ℕ) : Char := Char.ofNat (48 + d)

/-- Lower-case hexadecimal digit character. -/
def hexDigitChar (d : ℕ) : Char := Char.ofNat (if d < 10 then 48 + d else 87 + d)

/-- Decimal digits of a natural number, most significant first. -/
def natToChars (n : ℕ) : List Char :=
  if n = 0 then ['0'] else ((Nat.digits 10 n).map toDigitChar).reverse

/-- Decimal rendering of an integer. -/
def intToChars (i : ℤ) : List Char :=
  if i < 0 then '-' :: natToChars i.natAbs else natToChars i.natAbs

/-- Decimal rendering of a number.  `JSON.stringify` prints the shortest
decimal form of a double; the serialisable fragment below is restricted
to integral values, where that form is the plain integer. -/
def numToChars (q : ℚ) : List Char := intToChars q.num

/-- Escape of one character inside a JSON string literal. -/
def escChar (c : Char) : List Char :=
  if c = '"' then ['\\', '"']
  else if c = '\\' then ['\\', '\\']
  else if c.toNat < 32 then
    ['\\', 'u', '0', '0', hexDigitChar (c.toNat / 16), hexDigitChar (c.toNat % 16)]
  else [c]

/-- Escape of a character sequence. -/
def escChars : List Char → List Char
  | [] => []
  | c :: t => escChar c ++ escChars t

/-- A JSON string literal with its quotes. -/
def strLit (s : List Char) : List Char := '"' :: (escChars s ++ ['"'])

mutual
/-- Serialise a value (no added whitespace, like `JSON.stringify` with
one argument).  `NaN` prints as `null`. -/
def stringifyV : JVal → List Char
  | jnull => sChars "null"
  | jnan => sChars "null"
  | jbool true => sChars "true"
  | jbool false => sChars "false"
  | jnum q => numToChars q
  | jstr s => strLit s
  | jarr xs => '[' :: (stringifyA xs ++ [']'])
  | jobj fs => '{' :: (stringifyO fs ++ ['}'])
/-- Serialise array elements, comma separated. -/
def stringifyA : JArr → List Char
  | .nil => []
  | .cons v .nil => stringifyV v
  | .cons v tl => stringifyV v ++ ',' :: stringifyA tl
/-- Serialise object fields, comma separated. -/
def stringifyO : JObj → List Char
  | .nil => []
  | .cons k v .nil => strLit k ++ ':' :: stringifyV v
  | .cons k v tl => strLit k ++ ':' :: (stringifyV v ++ ',' :: stringifyO tl)
end

mutual
/-- The serialisable fragment used by the round-trip theorem: no `NaN`,
integral numbers, and no duplicate keys inside one object (a JavaScript
object cannot carry duplicates). -/
def wfV : JVal → Bool
  | jnull => true
  | jnan => false
  | jbool _ => true
  | jnum q => q.den == 1
  | jstr _ => true
  | jarr xs => wfA xs
  | jobj fs => wfO fs
/-- Serialisable fragment, array spine. -/
def wfA : JArr → Bool
  | .nil => true
  | .cons v tl => wfV v && wfA tl
/-- Serialisable fragment, object spine. -/
def wfO : JObj → Bool
  | .nil => true
  | .cons k v tl => !jobjHas tl k && wfV v && wfO tl
end

mutual
/-- Backtick-free values: no string or key contains a backtick, so the
serialisation cannot collide with a markdown fence. -/
def noBtV : JVal → Bool
  | jnull => true
  | jnan => true
  | jbool _ => true
  | jnum _ => true
  | jstr s => !s.contains btChar
  | jarr xs => noBtA xs
  | jobj fs => noBtO fs
/-- Backtick-free arrays. -/
def noBtA : JArr → Bool
  | .nil => true
  | .cons v tl => noBtV v && noBtA tl
/-- Backtick-free objects. -/
def noBtO : JObj → Bool
  | .nil => true
  | .cons k v tl => !k.contains btChar && noBtV v && noBtO tl
end

mutual
/-- Fuel measure of the recursive-descent reader. -/
def sizeV : JVal → ℕ
  | jnull => 1
  | jnan => 1
  | jbool _ => 1
  | jnum _ => 1
  | jstr _ => 1
  | jarr xs => sizeA xs + 1
  | jobj fs => sizeO fs + 1
/-- Fuel measure, array spine. -/
def sizeA : JArr → ℕ
  | .nil => 1
  | .cons v tl => max (sizeV v) (sizeA tl) + 1
/-- Fuel measure, object spine. -/
def sizeO : JObj → ℕ
  | .nil => 1
  | .cons _ v tl => max (sizeV v) (sizeO tl) + 1
end

/-! ### Remaining definitions used by the claim statements -/

/-- A list of characters after which a serialised number is read
completely: the next character (if any) cannot extend the number. -/
def numSafe : List Char → Prop
  | [] => True
  | c :: _ => isDigitChar c = false ∧ c ≠ '.' ∧ c ≠ 'e' ∧ c ≠ 'E'

/-- Effort input of the Priority Calculator as the specification words
it: `effort_score` when present, otherwise the size table, otherwise 50. -/
def specEffort (es : Option ℚ) (esize : Option (List Char)) : ℚ :=
  match es with
  | some e => e
  | none =>
    match esize with
    | some sz =>
      match effortSizeScore sz with
      | some v => v
      | none => 50
    | none => 50

/-- Effort input as the code computes it: a present but falsy (zero)
`effort_score` also falls back to the size table. -/
def codeEffort (es : Option ℚ) (esize : Option (List Char)) : ℚ :=
  match es with
  | some e => if e = 0 then specEffort none esize else e
  | none => specEffort none esize

/-- The manual weighted formula of the specification over optional
inputs, with a pluggable effort value. -/
def weightedFormula (bi sf ccv eff : ℚ) : ℚ :=
  bi * (35/100) + sf * (25/100) + ccv * (25/100) + eff * (15/100)

/-- The overall priority exactly as the specification sentence words it
(effort taken from `effort_score` whenever the field is present). -/
def specOverall (bi sf ccv es : Option ℚ) (esize : Option (List Char)) : ℤ :=
  jsRound (weightedFormula (bi.getD 0) (sf.getD 0) (ccv.getD 0) (specEffort es esize))

/-- Wrap a serialised body in a JSON-tagged fenced code block, with
arbitrary surrounding prose. -/
def wrapFenced (pre body post : List Char) : List Char :=
  pre ++ fenceJson ++ '\n' :: body ++ '\n' :: (fenceTicks ++ post)

/-! ### Helper lemmas: characters, digits, whitespace -/

theorem jsRound_eq_floor (q : ℚ) : jsRound q = ⌊q + 1/2⌋ := by
  rw [Rat.floor_def]; rfl

theorem skipWs_cons {c : Char} (t : List Char) (h : isWsChar c = false) :
    skipWs (c :: t) = c :: t := by
  simp [skipWs, List.dropWhile_cons, h]

theorem ws_char_cases {c : Char} (h : isWsChar c = true) :
    c = ' ' ∨ c = '\t' ∨ c = '\n' ∨ c = '\r' := by
  have h2 := h
  simp only [isWsChar, Bool.or_eq_true, decide_eq_true_eq] at h2
  tauto

theorem ne_of_digitChar {c d : Char} (h : isDigitChar c = true)
    (hd : isDigitChar d = false) : c ≠ d := by
  intro he
  rw [he, hd] at h
  exact absurd h (by decide)

theorem not_ws_of_digit {c : Char} (h : isDigitChar c = true) : isWsChar c = false := by
  cases hws : isWsChar c with
  | false => rfl
  | true =>
    rcases ws_char_cases hws with h1 | h1 | h1 | h1 <;> rw [h1] at h <;>
      exact absurd h (by decide)

theorem takeWhile_append_all {α : Type} {p : α → Bool} {l : List α} (r : List α)
    (hl : ∀ c ∈ l, p c = true) : (l ++ r).takeWhile p = l ++ r.takeWhile p := by
  induction l with
  | nil => simp
  | cons c t ih =>
    have hc : p c = true := hl c (by simp)
    simp only [List.cons_append, List.takeWhile_cons, hc, if_true]
    rw [ih (fun x hx => hl x (by simp [hx]))]

theorem dropWhile_append_all {α : Type} {p : α → Bool} {l : List α} (r : List α)
    (hl : ∀ c ∈ l, p c = true) : (l ++ r).dropWhile p = r.dropWhile p := by
  induction l with
  | nil => simp
  | cons c t ih =>
    have hc : p c = true := hl c (by simp)
    simp only [List.cons_append, List.dropWhile_cons, hc, if_true]
    exact ih (fun x hx => hl x (by simp [hx]))

theorem isDigit_toDigitChar {d : ℕ} (h : d < 10) : isDigitChar (toDigitChar d) = true := by
  interval_cases d <;> decide

theorem toNat_toDigitChar {d : ℕ} (h : d < 10) : (toDigitChar d).toNat - 48 = d := by
  interval_cases d <;> decide

theorem hexVal_hexDigitChar {d : ℕ} (h : d < 16) : hexVal (hexDigitChar d) = some d := by
  interval_cases d <;> decide

theorem natToChars_digits (n : ℕ) : ∀ c ∈ natToChars n, isDigitChar c = true := by
  unfold natToChars
  split
  · intro c hc
    simp at hc
    rw [hc]; decide
  · intro c hc
    simp only [List.mem_reverse, List.mem_map] at hc
    obtain ⟨d, hd, rfl⟩ := hc
    exact isDigit_toDigitChar (Nat.digits_lt_base (by norm_num) hd)

theorem natToChars_ne_nil (n : ℕ) : natToChars n ≠ [] := by
  unfold natToChars
  split
  · simp
  · simp [Nat.digits_ne_nil_iff_ne_zero, *]

/-! ### Number round trip -/

theorem digitsVal_append_digit (xs : List Char) (y : Char) :
    digitsVal (xs ++ [y]) = 10 * digitsVal xs + (y.toNat - 48) := by
  simp [digitsVal, List.foldl_append]

theorem digitsVal_of_digits (l : List ℕ) (hl : ∀ d ∈ l, d < 10) :
    digitsVal ((l.map toDigitChar).reverse) = Nat.ofDigits 10 l := by
  induction l with
  | nil => simp [digitsVal]
  | cons d t ih =>
    have hd : d < 10 := hl d (by simp)
    simp only [List.map_cons, List.reverse_cons]
    rw [digitsVal_append_digit, ih (fun x hx => hl x (by simp [hx])),
      toNat_toDigitChar hd, Nat.ofDigits_cons]
    ring

theorem digitsVal_natToChars (n : ℕ) : digitsVal (natToChars n) = n := by
  unfold natToChars
  split
  · simp [digitsVal, *]
  · rw [digitsVal_of_digits _ (fun d hd => Nat.digits_lt_base (by norm_num) hd),
      Nat.ofDigits_digits]

theorem numSafe_head {c : Char} {t : List Char} (h : numSafe (c :: t)) :
    isDigitChar c = false ∧ c ≠ '.' ∧ c ≠ 'e' ∧ c ≠ 'E' := h

theorem takeWhile_digits_numSafe {rest : List Char} (h : numSafe rest) :
    rest.takeWhile isDigitChar = [] := by
  cases rest with
  | nil => rfl
  | cons c t => simp [List.takeWhile_cons, (numSafe_head h).1]

theorem dropWhile_digits_numSafe {rest : List Char} (h : numSafe rest) :
    rest.dropWhile isDigitChar = rest := by
  cases rest with
  | nil => rfl
  | cons c t => simp [List.dropWhile_cons, (numSafe_head h).1]

theorem parseExpPart_safe (q : ℚ) {rest : List Char} (h : numSafe rest) :
    parseExpPart q rest = some (q, rest) := by
  cases rest with
  | nil => rfl
  | cons c t =>
    obtain ⟨-, -, he, hE⟩ := numSafe_head h
    simp only [parseExpPart]
    rw [if_neg (by tauto)]

theorem parseFracPart_safe (n : ℕ) {rest : List Char} (h : numSafe rest) :
    parseFracPart n rest = some ((n : ℚ), rest) := by
  cases rest with
  | nil => simp [parseFracPart, parseExpPart]
  | cons c t =>
    obtain ⟨-, hdot, -, -⟩ := numSafe_head h
    simp only [parseFracPart]
    rw [if_neg hdot]
    exact parseExpPart_safe _ h

theorem parseNumberCore_nat (n : ℕ) {rest : List Char} (h : numSafe rest) :
    parseNumberCore (natToChars n ++ rest) = some ((n : ℚ), rest) := by
  unfold parseNumberCore
  rw [takeWhile_append_all rest (natToChars_digits n),
    dropWhile_append_all rest (natToChars_digits n),
    takeWhile_digits_numSafe h, dropWhile_digits_numSafe h, List.append_nil]
  rw [if_neg (by simpa [List.isEmpty_iff] using natToChars_ne_nil n)]
  rw [digitsVal_natToChars]
  exact parseFracPart_safe n h

theorem parseNumber_int (i : ℤ) {rest : List Char} (h : numSafe rest) :
    parseNumber (intToChars i ++ rest) = some ((i : ℚ), rest) := by
  unfold intToChars
  by_cases hi : i < 0
  · rw [if_pos hi]
    show parseNumber ('-' :: (natToChars i.natAbs ++ rest)) = _
    simp only [parseNumber]
    rw [if_pos trivial, parseNumberCore_nat _ h]
    show some (-((i.natAbs : ℚ)), rest) = some ((i : ℚ), rest)
    have : ((i.natAbs : ℚ)) = -(i : ℚ) := by
      rw [Int.cast_natAbs]
      exact_mod_cast abs_of_neg hi
    rw [this, neg_neg]
  · rw [if_neg hi]
    obtain ⟨c, cs', hc⟩ := List.exists_cons_of_ne_nil (natToChars_ne_nil i.natAbs)
    have hcd : isDigitChar c = true := by
      apply natToChars_digits i.natAbs
      rw [hc]; simp
    rw [hc]
    show parseNumber (c :: (cs' ++ rest)) = _
    simp only [parseNumber]
    rw [if_neg (ne_of_digitChar hcd (by decide))]
    have : (c :: (cs' ++ rest)) = (natToChars i.natAbs ++ rest) := by rw [hc]; rfl
    rw [this, parseNumberCore_nat _ h]
    have : ((i.natAbs : ℚ)) = (i : ℚ) := by
      rw [Int.cast_natAbs]
      exact_mod_cast abs_of_nonneg (not_lt.mp hi)
    rw [this]

theorem parseNumber_rat {q : ℚ} (hq : q.den = 1) {rest : List Char} (h : numSafe rest) :
    parseNumber (numToChars q ++ rest) = some (q, rest) := by
  unfold numToChars
  rw [parseNumber_int _ h]
  congr 1
  have : ((q.num : ℚ)) = q := by
    conv_rhs => rw [← Rat.num_div_den q]
    rw [hq]
    simp
  rw [this]

/-! ### String round trip -/

theorem parseStringBody_cons_quote (Z : List Char) :
    parseStringBody ('\\' :: '"' :: Z) =
      (match parseStringBody Z with
       | some (s, r) => some ('"' :: s, r)
       | none => none) := rfl

theorem parseStringBody_cons_backslash (Z : List Char) :
    parseStringBody ('\\' :: '\\' :: Z) =
      (match parseStringBody Z with
       | some (s, r) => some ('\\' :: s, r)
       | none => none) := rfl

theorem parseStringBody_cons_unicode (e1 e2 e3 e4 : Char) (Z : List Char) :
    parseStringBody ('\\' :: 'u' :: e1 :: e2 :: e3 :: e4 :: Z) =
      (match hexVal e1, hexVal e2, hexVal e3, hexVal e4 with
       | some a, some b, some c2, some d =>
         match parseStringBody Z with
         | some (s, r) => some (Char.ofNat (4096 * a + 256 * b + 16 * c2 + d) :: s, r)
         | none => none
       | _, _, _, _ => none) := rfl

theorem parseStringBody_cons_plain {c : Char} (h1 : c ≠ '"') (h2 : c ≠ '\\')
    (h3 : ¬(c.toNat < 32)) (Z : List Char) :
    parseStringBody (c :: Z) =
      (match parseStringBody Z with
       | some (s, r) => some (c :: s, r)
       | none => none) := by
  rw [parseStringBody.eq_def]
  split
  · simp_all
  · simp_all
  · simp_all
  · simp_all
  · simp_all
  · rename_i heq
    injection heq with hc hr
    subst hc
    subst hr
    rw [if_neg h3]

theorem parseStringBody_escChars (s : List Char) (rest : List Char) :
    parseStringBody (escChars s ++ ('"' :: rest)) = some (s, rest) := by
  induction s with
  | nil =>
    show parseStringBody ('"' :: rest) = some ([], rest)
    rfl
  | cons c t ih =>
    show parseStringBody ((escChar c ++ escChars t) ++ ('"' :: rest)) = _
    rw [List.append_assoc]
    unfold escChar
    by_cases h1 : c = '"'
    · subst h1
      rw [if_pos rfl]
      show parseStringBody ('\\' :: '"' :: (escChars t ++ '"' :: rest)) = _
      rw [parseStringBody_cons_quote, ih]
    · rw [if_neg h1]
      by_cases h2 : c = '\\'
      · subst h2
        rw [if_pos rfl]
        show parseStringBody ('\\' :: '\\' :: (escChars t ++ '"' :: rest)) = _
        rw [parseStringBody_cons_backslash, ih]
      · rw [if_neg h2]
        by_cases h3 : c.toNat < 32
        · rw [if_pos h3]
          show parseStringBody ('\\' :: 'u' :: '0' :: '0' :: hexDigitChar (c.toNat / 16) ::
            hexDigitChar (c.toNat % 16) :: (escChars t ++ '"' :: rest)) = _
          rw [parseStringBody_cons_unicode]
          have h0 : hexVal '0' = some 0 := by decide
          rw [h0, hexVal_hexDigitChar (by omega : c.toNat / 16 < 16),
            hexVal_hexDigitChar (by omega : c.toNat % 16 < 16), ih]
          show some (Char.ofNat (4096 * 0 + 256 * 0 + 16 * (c.toNat / 16) + c.toNat % 16) :: t,
            rest) = some (c :: t, rest)
          have hc : (4096 * 0 + 256 * 0 + 16 * (c.toNat / 16) + c.toNat % 16) = c.toNat := by
            omega
          rw [hc, Char.ofNat_toNat]
        · rw [if_neg h3]
          show parseStringBody (c :: (escChars t ++ '"' :: rest)) = _
          rw [parseStringBody_cons_plain h1 h2 h3, ih]

/-! ### Heads of serialised values and reader step equations -/

theorem numToChars_head (q : ℚ) :
    ∃ c cs, numToChars q = c :: cs ∧ (c = '-' ∨ isDigitChar c = true) := by
  unfold numToChars intToChars
  by_cases hq : q.num < 0
  · rw [if_pos hq]
    exact ⟨'-', natToChars q.num.natAbs, rfl, Or.inl rfl⟩
  · rw [if_neg hq]
    obtain ⟨c, cs, hc⟩ := List.exists_cons_of_ne_nil (natToChars_ne_nil q.num.natAbs)
    refine ⟨c, cs, hc, Or.inr ?_⟩
    exact natToChars_digits _ c (by rw [hc]; simp)

theorem stringify_head (v : JVal) :
    ∃ c cs, stringifyV v = c :: cs ∧ isWsChar c = false ∧
      c ≠ ']' ∧ c ≠ '}' ∧ c ≠ ',' := by
  cases v with
  | jnull => exact ⟨'n', _, rfl, by decide, by decide, by decide, by decide⟩
  | jnan => exact ⟨'n', _, rfl, by decide, by decide, by decide, by decide⟩
  | jbool b =>
    cases b with
    | true => exact ⟨'t', _, rfl, by decide, by decide, by decide, by decide⟩
    | false => exact ⟨'f', _, rfl, by decide, by decide, by decide, by decide⟩
  | jstr s => exact ⟨'"', _, rfl, by decide, by decide, by decide, by decide⟩
  | jarr xs => exact ⟨'[', _, rfl, by decide, by decide, by decide, by decide⟩
  | jobj fs => exact ⟨'{', _, rfl, by decide, by decide, by decide, by decide⟩
  | jnum q =>
    obtain ⟨c, cs, hc, hcase⟩ := numToChars_head q
    refine ⟨c, cs, hc, ?_, ?_, ?_, ?_⟩ <;> rcases hcase with rfl | hd
    · decide
    · exact not_ws_of_digit hd
    · decide
    · exact ne_of_digitChar hd (by decide)
    · decide
    · exact ne_of_digitChar hd (by decide)
    · decide
    · exact ne_of_digitChar hd (by decide)

theorem numSafe_comma (X : List Char) : numSafe (',' :: X) :=
  ⟨by decide, by decide, by decide, by decide⟩

theorem numSafe_rbrace (X : List Char) : numSafe ('}' :: X) :=
  ⟨by decide, by decide, by decide, by decide⟩

theorem numSafe_rbracket (X : List Char) : numSafe (']' :: X) :=
  ⟨by decide, by decide, by decide, by decide⟩

theorem parseVal_succ_lbrace (f : ℕ) (Z : List Char) :
    parseVal (f + 1) ('{' :: Z) =
      (match skipWs Z with
       | '}' :: r2 => some (jobj .nil, r2)
       | r2 =>
         match parseFields f r2 with
         | some (fs, rest) => some (jobj fs, rest)
         | none => none) := rfl

theorem parseVal_succ_lbracket (f : ℕ) (Z : List Char) :
    parseVal (f + 1) ('[' :: Z) =
      (match skipWs Z with
       | ']' :: r2 => some (jarr .nil, r2)
       | r2 =>
         match parseItems f r2 with
         | some (xs, rest) => some (jarr xs, rest)
         | none => none) := rfl

theorem parseVal_succ_quote (f : ℕ) (Z : List Char) :
    parseVal (f + 1) ('"' :: Z) =
      (match parseStringBody Z with
       | some (s, rest) => some (jstr s, rest)
       | none => none) := rfl

theorem parseVal_succ_minus (f : ℕ) (Z : List Char) :
    parseVal (f + 1) ('-' :: Z) =
      (match parseNumber ('-' :: Z) with
       | some (q, rest) => some (jnum q, rest)
       | none => none) := rfl

theorem parseFields_succ_quote (f : ℕ) (Z : List Char) :
    parseFields (f + 1) ('"' :: Z) =
      (match parseStringBody Z with
       | some (k, rest) =>
         match skipWs rest with
         | ':' :: r2 =>
           match parseVal f r2 with
           | some (v, rest2) =>
             match skipWs rest2 with
             | ',' :: r3 =>
               match parseFields f r3 with
               | some (fs, rest3) => some (.cons k v fs, rest3)
               | none => none
             | '}' :: r3 => some (.cons k v .nil, r3)
             | _ => none
           | none => none
         | _ => none
       | none => none) := rfl

theorem parseVal_succ_digit {c : Char} (hc : isDigitChar c = true) (f : ℕ) (Z : List Char) :
    parseVal (f + 1) (c :: Z) =
      (match parseNumber (c :: Z) with
       | some (q, rest) => some (jnum q, rest)
       | none => none) := by
  have hws : isWsChar c = false := not_ws_of_digit hc
  simp only [parseVal.eq_def]
  rw [show skipWs (c :: Z) = c :: Z from skipWs_cons Z hws]
  split
  · rename_i heq
    obtain ⟨rfl, rfl⟩ := heq
    exact absurd hc (by decide)
  · rename_i heq
    obtain ⟨rfl, rfl⟩ := heq
    exact absurd hc (by decide)
  · rename_i heq
    obtain ⟨rfl, rfl⟩ := heq
    exact absurd hc (by decide)
  · rename_i heq
    obtain ⟨rfl, rfl⟩ := heq
    exact absurd hc (by decide)
  · rename_i heq
    obtain ⟨rfl, rfl⟩ := heq
    exact absurd hc (by decide)
  · rename_i heq
    obtain ⟨rfl, rfl⟩ := heq
    exact absurd hc (by decide)
  · rename_i heq
    obtain ⟨rfl, rfl⟩ := heq
    rw [if_pos (by simp [hc])]
  · simp_all

theorem parseItems_succ (f : ℕ) (Z : List Char) :
    parseItems (f + 1) Z =
      (match parseVal f Z with
       | some (v, rest) =>
         match skipWs rest with
         | ',' :: r2 =>
           match parseItems f r2 with
           | some (xs, rest2) => some (.cons v xs, rest2)
           | none => none
         | ']' :: r2 => some (.cons v .nil, r2)
         | _ => none
       | none => none) := rfl

theorem sizeV_pos (v : JVal) : 1 ≤ sizeV v := by
  cases v <;> simp [sizeV]

/-! ### The round trip of the reader over the serialiser -/

mutual
theorem rtV (v : JVal) (hwf : wfV v = true) (f : ℕ) (rest : List Char)
    (hf : sizeV v ≤ f) (hns : numSafe rest) :
    parseVal f (stringifyV v ++ rest) = some (v, rest) := by
  obtain ⟨f', rfl⟩ : ∃ f', f = f' + 1 :=
    ⟨f - 1, by have := sizeV_pos v; omega⟩
  cases v with
  | jnull =>
    show parseVal (f' + 1) ('n' :: 'u' :: 'l' :: 'l' :: rest) = some (jnull, rest)
    rfl
  | jnan => simp [wfV] at hwf
  | jbool b =>
    cases b with
    | true =>
      show parseVal (f' + 1) ('t' :: 'r' :: 'u' :: 'e' :: rest) = some (jbool true, rest)
      rfl
    | false =>
      show parseVal (f' + 1) ('f' :: 'a' :: 'l' :: 's' :: 'e' :: rest) = some (jbool false, rest)
      rfl
  | jnum q =>
    have hden : q.den = 1 := by simpa [wfV] using hwf
    obtain ⟨c, cs, hc, hcase⟩ := numToChars_head q
    show parseVal (f' + 1) (numToChars q ++ rest) = some (jnum q, rest)
    have hpn := parseNumber_rat hden hns
    rcases hcase with rfl | hd
    · rw [hc, List.cons_append, parseVal_succ_minus]
      rw [hc, List.cons_append] at hpn
      rw [hpn]
    · rw [hc, List.cons_append, parseVal_succ_digit hd]
      rw [hc, List.cons_append] at hpn
      rw [hpn]
  | jstr s =>
    show parseVal (f' + 1) (('"' :: (escChars s ++ ['"'])) ++ rest) = some (jstr s, rest)
    rw [List.cons_append, List.append_assoc, List.singleton_append]
    rw [parseVal_succ_quote, parseStringBody_escChars]
  | jarr xs =>
    cases xs with
    | nil =>
      show parseVal (f' + 1) ('[' :: (']' :: rest)) = some (jarr .nil, rest)
      rfl
    | cons v tl =>
      have hwf' : wfA (.cons v tl) = true := by simpa [wfV] using hwf
      have hf' : sizeA (.cons v tl) ≤ f' := by
        simp only [sizeV] at hf; omega
      show parseVal (f' + 1) (('[' :: (stringifyA (.cons v tl) ++ [']'])) ++ rest) =
        some (jarr (.cons v tl), rest)
      rw [List.cons_append, List.append_assoc, List.singleton_append]
      rw [parseVal_succ_lbracket]
      obtain ⟨c, cs, hc, hws, hrb, hbr, hcm⟩ := stringify_head v
      have hhead : ∃ W, stringifyA (.cons v tl) ++ (']' :: rest) = c :: W := by
        cases tl with
        | nil =>
          refine ⟨cs ++ (']' :: rest), ?_⟩
          show stringifyV v ++ (']' :: rest) = _
          rw [hc]
          rfl
        | cons w tw =>
          refine ⟨(cs ++ (',' :: stringifyA (.cons w tw))) ++ (']' :: rest), ?_⟩
          show (stringifyV v ++ (',' :: stringifyA (.cons w tw))) ++ (']' :: rest) = _
          rw [hc]
          rfl
      obtain ⟨W, hW⟩ := hhead
      rw [hW, skipWs_cons W hws]
      split
      · rename_i heq
        injection heq with h1 h2
        exact absurd h1 hrb
      · rw [← hW, rtA (.cons v tl) (fun h => nomatch h) hwf' f' rest hf']
  | jobj fs =>
    cases fs with
    | nil =>
      show parseVal (f' + 1) ('{' :: ('}' :: rest)) = some (jobj .nil, rest)
      rfl
    | cons k v tl =>
      have hwf' : wfO (.cons k v tl) = true := by simpa [wfV] using hwf
      have hf' : sizeO (.cons k v tl) ≤ f' := by
        simp only [sizeV] at hf; omega
      show parseVal (f' + 1) (('{' :: (stringifyO (.cons k v tl) ++ ['}'])) ++ rest) =
        some (jobj (.cons k v tl), rest)
      rw [List.cons_append, List.append_assoc, List.singleton_append]
      rw [parseVal_succ_lbrace]
      have hY : ∃ Y, stringifyO (.cons k v tl) ++ ('}' :: rest) = '"' :: Y := by
        cases tl with
        | nil =>
          exact ⟨((escChars k ++ ['"']) ++ (':' :: stringifyV v)) ++ ('}' :: rest), rfl⟩
        | cons k2 v2 tl2 =>
          exact ⟨((escChars k ++ ['"']) ++
            (':' :: (stringifyV v ++ (',' :: stringifyO (.cons k2 v2 tl2))))) ++
            ('}' :: rest), rfl⟩
      obtain ⟨Y, hYe⟩ := hY
      rw [hYe, skipWs_cons Y (by decide)]
      split
      · rename_i heq
        injection heq with h1 h2
        exact absurd h1 (by decide)
      · rw [← hYe, rtO (.cons k v tl) (fun h => nomatch h) hwf' f' rest hf']
theorem rtA (xs : JArr) (hne : xs ≠ .nil) (hwf : wfA xs = true) (f : ℕ) (rest : List Char)
    (hf : sizeA xs ≤ f) :
    parseItems f (stringifyA xs ++ (']' :: rest)) = some (xs, rest) := by
  cases xs with
  | nil => exact absurd rfl hne
  | cons v tl =>
    obtain ⟨f', rfl⟩ : ∃ f', f = f' + 1 := ⟨f - 1, by simp only [sizeA] at hf; omega⟩
    have hmax : max (sizeV v) (sizeA tl) ≤ f' := by simp only [sizeA] at hf; omega
    have hwfv : wfV v = true := by
      simp only [wfA, Bool.and_eq_true] at hwf; exact hwf.1
    have hwftl : wfA tl = true := by
      simp only [wfA, Bool.and_eq_true] at hwf; exact hwf.2
    have hfv : sizeV v ≤ f' := le_trans (le_max_left _ _) hmax
    have hftl : sizeA tl ≤ f' := le_trans (le_max_right _ _) hmax
    cases tl with
    | nil =>
      show parseItems (f' + 1) (stringifyV v ++ (']' :: rest)) = some (.cons v .nil, rest)
      rw [parseItems_succ, rtV v hwfv f' (']' :: rest) hfv (numSafe_rbracket rest)]
      rfl
    | cons w tw =>
      show parseItems (f' + 1)
        ((stringifyV v ++ (',' :: stringifyA (.cons w tw))) ++ (']' :: rest)) =
        some (.cons v (.cons w tw), rest)
      rw [List.append_assoc, List.cons_append]
      rw [parseItems_succ,
        rtV v hwfv f' (',' :: (stringifyA (.cons w tw) ++ (']' :: rest))) hfv
          (numSafe_comma _)]
      show (match parseItems f' (stringifyA (.cons w tw) ++ (']' :: rest)) with
            | some (xs2, rest2) => some (JArr.cons v xs2, rest2)
            | none => none) = some (.cons v (.cons w tw), rest)
      rw [rtA (.cons w tw) (fun h => nomatch h) hwftl f' rest hftl]
theorem rtO (fs : JObj) (hne : fs ≠ .nil) (hwf : wfO fs = true) (f : ℕ) (rest : List Char)
    (hf : sizeO fs ≤ f) :
    parseFields f (stringifyO fs ++ ('}' :: rest)) = some (fs, rest) := by
  cases fs with
  | nil => exact absurd rfl hne
  | cons k v tl =>
    obtain ⟨f', rfl⟩ : ∃ f', f = f' + 1 := ⟨f - 1, by simp only [sizeO] at hf; omega⟩
    have hmax : max (sizeV v) (sizeO tl) ≤ f' := by simp only [sizeO] at hf; omega
    have hwfv : wfV v = true := by
      simp only [wfO, Bool.and_eq_true] at hwf; exact hwf.1.2
    have hwftl : wfO tl = true := by
      simp only [wfO, Bool.and_eq_true] at hwf; exact hwf.2
    have hfv : sizeV v ≤ f' := le_trans (le_max_left _ _) hmax
    have hftl : sizeO tl ≤ f' := le_trans (le_max_right _ _) hmax
    cases tl with
    | nil =>
      show parseFields (f' + 1) ((strLit k ++ (':' :: stringifyV v)) ++ ('}' :: rest)) =
        some (.cons k v .nil, rest)
      have hsh : (strLit k ++ (':' :: stringifyV v)) ++ ('}' :: rest) =
          '"' :: (escChars k ++ ('"' :: (':' :: (stringifyV v ++ ('}' :: rest))))) := by
        simp [strLit, List.append_assoc]
      rw [hsh, parseFields_succ_quote, parseStringBody_escChars]
      show (match parseVal f' (stringifyV v ++ ('}' :: rest)) with
            | some (w, rest2) =>
              match skipWs rest2 with
              | ',' :: r3 =>
                match parseFields f' r3 with
                | some (fs2, rest3) => some (JObj.cons k w fs2, rest3)
                | none => none
              | '}' :: r3 => some (JObj.cons k w .nil, r3)
              | _ => none
            | none => none) = some (.cons k v .nil, rest)
      rw [rtV v hwfv f' ('}' :: rest) hfv (numSafe_rbrace rest)]
      rfl
    | cons k2 v2 tl2 =>
      show parseFields (f' + 1)
        ((strLit k ++ (':' :: (stringifyV v ++ (',' :: stringifyO (.cons k2 v2 tl2))))) ++
          ('}' :: rest)) = some (.cons k v (.cons k2 v2 tl2), rest)
      have hsh : (strLit k ++ (':' :: (stringifyV v ++ (',' :: stringifyO (.cons k2 v2 tl2))))) ++
          ('}' :: rest) =
          '"' :: (escChars k ++ ('"' :: (':' :: (stringifyV v ++
            (',' :: (stringifyO (.cons k2 v2 tl2) ++ ('}' :: rest))))))) := by
        simp [strLit, List.append_assoc]
      rw [hsh, parseFields_succ_quote, parseStringBody_escChars]
      show (match parseVal f'
              (stringifyV v ++ (',' :: (stringifyO (.cons k2 v2 tl2) ++ ('}' :: rest)))) with
            | some (w, rest2) =>
              match skipWs rest2 with
              | ',' :: r3 =>
                match parseFields f' r3 with
                | some (fs2, rest3) => some (JObj.cons k w fs2, rest3)
                | none => none
              | '}' :: r3 => some (JObj.cons k w .nil, r3)
              | _ => none
            | none => none) = some (.cons k v (.cons k2 v2 tl2), rest)
      rw [rtV v hwfv f'
        (',' :: (stringifyO (.cons k2 v2 tl2) ++ ('}' :: rest))) hfv (numSafe_comma _)]
      show (match parseFields f' (stringifyO (.cons k2 v2 tl2) ++ ('}' :: rest)) with
            | some (fs2, rest3) => some (JObj.cons k v fs2, rest3)
            | none => none) = some (.cons k v (.cons k2 v2 tl2), rest)
      rw [rtO (.cons k2 v2 tl2) (fun h => nomatch h) hwftl f' rest hftl]
end

/-! ### Fuel bound, top-level parse, repair identity, trim -/

theorem one_le_length_stringifyV (v : JVal) : 1 ≤ (stringifyV v).length := by
  obtain ⟨c, cs, hc, -⟩ := stringify_head v
  rw [hc]
  simp

mutual
theorem lenV (v : JVal) : sizeV v ≤ (stringifyV v).length := by
  cases v with
  | jnull => simp [sizeV, stringifyV, sChars]
  | jnan => simp [sizeV, stringifyV, sChars]
  | jbool b => cases b <;> simp [sizeV, stringifyV, sChars]
  | jnum q =>
    have := one_le_length_stringifyV (jnum q)
    simpa [sizeV] using this
  | jstr s => simp [sizeV, stringifyV, strLit]
  | jarr xs =>
    have h := lenA xs
    show sizeA xs + 1 ≤ ('[' :: (stringifyA xs ++ [']'])).length
    simp only [List.length_cons, List.length_append, List.length_singleton]
    omega
  | jobj fs =>
    have h := lenO fs
    show sizeO fs + 1 ≤ ('{' :: (stringifyO fs ++ ['}'])).length
    simp only [List.length_cons, List.length_append, List.length_singleton]
    omega
theorem lenA (xs : JArr) : sizeA xs ≤ (stringifyA xs).length + 1 := by
  cases xs with
  | nil => simp [sizeA, stringifyA]
  | cons v tl =>
    have hv := lenV v
    have h1 := one_le_length_stringifyV v
    cases tl with
    | nil =>
      show max (sizeV v) (sizeA .nil) + 1 ≤ (stringifyV v).length + 1
      simp only [sizeA]
      omega
    | cons w tw =>
      have htl := lenA (.cons w tw)
      show max (sizeV v) (sizeA (.cons w tw)) + 1 ≤
        (stringifyV v ++ (',' :: stringifyA (.cons w tw))).length + 1
      simp only [List.length_append, List.length_cons]
      omega
theorem lenO (fs : JObj) : sizeO fs ≤ (stringifyO fs).length + 1 := by
  cases fs with
  | nil => simp [sizeO, stringifyO]
  | cons k v tl =>
    have hv := lenV v
    have h1 : 2 ≤ (strLit k).length := by simp [strLit]
    cases tl with
    | nil =>
      show max (sizeV v) (sizeO .nil) + 1 ≤ (strLit k ++ (':' :: stringifyV v)).length + 1
      simp only [sizeO, List.length_append, List.length_cons]
      omega
    | cons k2 v2 tl2 =>
      have htl := lenO (.cons k2 v2 tl2)
      show max (sizeV v) (sizeO (.cons k2 v2 tl2)) + 1 ≤
        (strLit k ++ (':' :: (stringifyV v ++ (',' :: stringifyO (.cons k2 v2 tl2))))).length + 1
      simp only [List.length_append, List.length_cons]
      omega
end

theorem parseJson_stringifyV (v : JVal) (hwf : wfV v = true) :
    parseJson (stringifyV v) = some v := by
  unfold parseJson
  have h1 := rtV v hwf ((stringifyV v).length + 1) [] (by have := lenV v; omega) trivial
  rw [List.append_nil] at h1
  rw [h1]
  rfl

theorem lastBraceIdx_append_rbrace (ys : List Char) :
    lastBraceIdx (ys ++ ['}']) = some ys.length := by
  unfold lastBraceIdx
  rw [List.reverse_append]
  show (match List.findIdx? (fun c => c = '}') ('}' :: ys.reverse) with
        | some j => some ((ys ++ ['}']).length - 1 - j)
        | none => none) = some ys.length
  rw [List.findIdx?_cons]
  simp

theorem repairBraces_rbrace (ys : List Char) : repairBraces (ys ++ ['}']) = ys ++ ['}'] := by
  unfold repairBraces
  split
  · rw [lastBraceIdx_append_rbrace]
    show (if 0 < ys.length then
            if scanBack (((ys ++ ['}']).take ys.length).reverse) 1 then
              (ys ++ ['}']).take (ys.length + 1)
            else ys ++ ['}']
          else ys ++ ['}']) = ys ++ ['}']
    split
    · split
      · rw [show ys.length + 1 = (ys ++ ['}']).length by simp, List.take_length]
      · rfl
    · rfl
  · rfl

theorem trimChars_nl {c : Char} (hc : isWsChar c = false) (mid : List Char) {d : Char}
    (hd : isWsChar d = false) :
    trimChars ('\n' :: ((c :: (mid ++ [d])) ++ ['\n'])) = c :: (mid ++ [d]) := by
  unfold trimChars
  rw [List.dropWhile_cons]
  rw [if_pos (by decide : isWsChar '\n' = true)]
  rw [show ((c :: (mid ++ [d])) ++ ['\n']) = c :: ((mid ++ [d]) ++ ['\n']) from rfl]
  rw [List.dropWhile_cons, if_neg (by simp [hc])]
  rw [show (c :: ((mid ++ [d]) ++ ['\n'])).reverse =
    '\n' :: ((mid ++ [d]).reverse ++ [c]) from by simp]
  rw [List.dropWhile_cons, if_pos (by decide : isWsChar '\n' = true)]
  rw [show (mid ++ [d]).reverse = d :: mid.reverse from by simp]
  rw [show (d :: mid.reverse) ++ [c] = d :: (mid.reverse ++ [c]) from rfl]
  rw [List.dropWhile_cons, if_neg (by simp [hd])]
  simp

/-! ### Fence extraction lemmas -/

theorem isPrefixOf_append_same (a b c : List Char) :
    (a ++ b).isPrefixOf (a ++ c) = b.isPrefixOf c := by
  induction a with
  | nil => rfl
  | cons x t ih => simp [List.isPrefixOf, ih]

theorem breakSub_none_of_no_head {s0 : Char} (st : List Char) {xs : List Char}
    (h : ∀ c ∈ xs, c ≠ s0) : breakSub (s0 :: st) xs = none := by
  induction xs with
  | nil => rfl
  | cons c t ih =>
    have hc : (s0 == c) = false := beq_eq_false_iff_ne.mpr (Ne.symm (h c (by simp)))
    show breakSub (s0 :: st) (c :: t) = none
    simp only [breakSub]
    rw [if_neg (by simp [List.isPrefixOf, hc])]
    rw [ih (fun x hx => h x (by simp [hx]))]

theorem breakSub_append {s0 : Char} (st : List Char) (pre tail : List Char)
    (h : ∀ c ∈ pre, c ≠ s0) :
    breakSub (s0 :: st) ((pre ++ (s0 :: st)) ++ tail) = some (pre, tail) := by
  induction pre with
  | nil =>
    show breakSub (s0 :: st) ((s0 :: st) ++ tail) = some ([], tail)
    have hpf : (s0 :: st).isPrefixOf ((s0 :: st) ++ tail) = true := by
      have := isPrefixOf_append_same (s0 :: st) [] tail
      simpa using this
    have hd : ((s0 :: st) ++ tail).drop (s0 :: st).length = tail := List.drop_left _ _
    cases hcons : (s0 :: st) ++ tail with
    | nil => simp at hcons
    | cons y ys =>
      rw [hcons] at hpf hd
      simp only [breakSub]
      rw [if_pos hpf, hd]
  | cons c t ih =>
    have hc : (s0 == c) = false := beq_eq_false_iff_ne.mpr (Ne.symm (h c (by simp)))
    show breakSub (s0 :: st) (c :: ((t ++ (s0 :: st)) ++ tail)) = some (c :: t, tail)
    simp only [breakSub]
    rw [if_neg (by simp [List.isPrefixOf, hc])]
    rw [ih (fun x hx => h x (by simp [hx]))]

theorem hasSub_append (s0 : Char) (st a b : List Char) :
    hasSub (s0 :: st) ((a ++ (s0 :: st)) ++ b) = true := by
  induction a with
  | nil =>
    have hpf : (s0 :: st).isPrefixOf ((s0 :: st) ++ b) = true := by
      have := isPrefixOf_append_same (s0 :: st) [] b
      simpa using this
    show ((breakSub (s0 :: st) ((s0 :: st) ++ b)).isSome) = true
    cases hcons : (s0 :: st) ++ b with
    | nil => simp at hcons
    | cons y ys =>
      rw [hcons] at hpf
      simp only [breakSub]
      rw [if_pos hpf]
      rfl
  | cons c t ih =>
    show ((breakSub (s0 :: st) (c :: ((t ++ (s0 :: st)) ++ b))).isSome) = true
    simp only [breakSub]
    split
    · rfl
    · unfold hasSub at ih
      cases hb : breakSub (s0 :: st) ((t ++ (s0 :: st)) ++ b) with
      | none => rw [hb] at ih; simp at ih
      | some ab => obtain ⟨a1, b1⟩ := ab; rfl

theorem breakSub_cons (sep : List Char) (c : Char) (t : List Char) :
    breakSub sep (c :: t) =
      if sep.isPrefixOf (c :: t) then some ([], (c :: t).drop sep.length)
      else
        match breakSub sep t with
        | some (a, b) => some (c :: a, b)
        | none => none := rfl

theorem isPrefixOf_false_of_head_ne {s0 c : Char} (st t : List Char) (h : c ≠ s0) :
    (s0 :: st).isPrefixOf (c :: t) = false := by
  have hc : (s0 == c) = false := beq_eq_false_iff_ne.mpr (Ne.symm h)
  simp [List.isPrefixOf, hc]

theorem isPrefixOf_false_of_no_head {s0 : Char} (st : List Char) {xs : List Char}
    (h : ∀ c ∈ xs, c ≠ s0) : (s0 :: st).isPrefixOf xs = false := by
  cases xs with
  | nil => rfl
  | cons c t => exact isPrefixOf_false_of_head_ne st t (h c (by simp))

theorem fenceTicks_eq : fenceTicks = btChar :: sChars "``" := by decide

theorem fenceJson_eq : fenceJson = btChar :: sChars "``json" := by decide

theorem fenceJson_split : fenceJson = fenceTicks ++ sChars "json" := by decide

theorem breakSub_fj_ticks {post : List Char} (hpost : ∀ c ∈ post, c ≠ btChar) :
    breakSub fenceJson (fenceTicks ++ post) =
      (if (sChars "json").isPrefixOf post then some ([], post.drop 4) else none) := by
  have e1 : fenceTicks ++ post = btChar :: (sChars "``" ++ post) := by
    rw [fenceTicks_eq]; rfl
  have e2 : sChars "``" ++ post = btChar :: (sChars "`" ++ post) := by
    have h : sChars "``" = btChar :: sChars "`" := by decide
    rw [h]; rfl
  have e3 : sChars "`" ++ post = btChar :: post := by
    have h : sChars "`" = [btChar] := by decide
    rw [h]; rfl
  have hP1 : fenceJson.isPrefixOf (sChars "``" ++ post) = false := by
    have hs : fenceJson = sChars "``" ++ sChars "`json" := by decide
    rw [hs, isPrefixOf_append_same]
    have h2 : sChars "`json" = btChar :: sChars "json" := by decide
    rw [h2]
    exact isPrefixOf_false_of_no_head _ hpost
  have hP2 : fenceJson.isPrefixOf (sChars "`" ++ post) = false := by
    have hs : fenceJson = sChars "`" ++ sChars "``json" := by decide
    rw [hs, isPrefixOf_append_same]
    have h2 : sChars "``json" = btChar :: sChars "`json" := by decide
    rw [h2]
    exact isPrefixOf_false_of_no_head _ hpost
  have hP3 : breakSub fenceJson post = none := by
    rw [fenceJson_eq]
    exact breakSub_none_of_no_head _ hpost
  have hpost1 : breakSub fenceJson (sChars "`" ++ post) = none := by
    have hpf : fenceJson.isPrefixOf (btChar :: post) = false := by rw [← e3]; exact hP2
    rw [e3, breakSub_cons]
    rw [if_neg (by simp [hpf]), hP3]
  have hpost2 : breakSub fenceJson (sChars "``" ++ post) = none := by
    have hpf : fenceJson.isPrefixOf (btChar :: (sChars "`" ++ post)) = false := by
      rw [← e2]; exact hP1
    rw [e2, breakSub_cons]
    rw [if_neg (by simp [hpf]), hpost1]
  by_cases hj : (sChars "json").isPrefixOf post = true
  · have hP0 : fenceJson.isPrefixOf (fenceTicks ++ post) = true := by
      rw [fenceJson_split, isPrefixOf_append_same, hj]
    have hpf : fenceJson.isPrefixOf (btChar :: (sChars "``" ++ post)) = true := by
      rw [← e1]; exact hP0
    have hdrop : (btChar :: (sChars "``" ++ post)).drop fenceJson.length = post.drop 4 := by
      rw [← e1]
      have h7 : fenceJson.length = fenceTicks.length + 4 := by decide
      rw [h7, List.drop_append]
    rw [e1, breakSub_cons]
    rw [if_pos hpf, hdrop, if_pos hj]
  · have hb : (sChars "json").isPrefixOf post = false := Bool.eq_false_iff.mpr hj
    have hP0 : fenceJson.isPrefixOf (fenceTicks ++ post) = false := by
      rw [fenceJson_split, isPrefixOf_append_same, hb]
    have hpf : fenceJson.isPrefixOf (btChar :: (sChars "``" ++ post)) = false := by
      rw [← e1]; exact hP0
    rw [e1, breakSub_cons]
    rw [if_neg (by simp [hpf]), hpost2, if_neg (by simp [hb])]

theorem breakSub_fj_mid {mid post : List Char} (hmid : ∀ c ∈ mid, c ≠ btChar)
    (hpost : ∀ c ∈ post, c ≠ btChar) :
    breakSub fenceJson (mid ++ (fenceTicks ++ post)) =
      (if (sChars "json").isPrefixOf post then some (mid, post.drop 4) else none) := by
  induction mid with
  | nil => simpa using breakSub_fj_ticks hpost
  | cons c t ih =>
    have hc : c ≠ btChar := hmid c (by simp)
    have hpf : fenceJson.isPrefixOf (c :: (t ++ (fenceTicks ++ post))) = false := by
      rw [fenceJson_eq]
      exact isPrefixOf_false_of_head_ne _ _ hc
    show breakSub fenceJson (c :: (t ++ (fenceTicks ++ post))) = _
    rw [breakSub_cons]
    rw [if_neg (by simp [hpf])]
    rw [ih (fun x hx => hmid x (by simp [hx]))]
    by_cases hj : (sChars "json").isPrefixOf post = true
    · rw [if_pos hj, if_pos hj]
    · rw [if_neg hj, if_neg hj]

theorem breakSub_ft_mid {mid : List Char} (post : List Char)
    (hmid : ∀ c ∈ mid, c ≠ btChar) :
    breakSub fenceTicks (mid ++ (fenceTicks ++ post)) = some (mid, post) := by
  have h := breakSub_append (sChars "``") mid post hmid
  rw [List.append_assoc] at h
  rw [fenceTicks_eq]
  exact h

theorem breakSub_ft_none {mid : List Char} (hmid : ∀ c ∈ mid, c ≠ btChar) :
    breakSub fenceTicks mid = none := by
  rw [fenceTicks_eq]
  exact breakSub_none_of_no_head _ hmid

theorem splitOnSubF_succ (sep : List Char) (f : ℕ) (s : List Char) :
    splitOnSubF sep (f + 1) s =
      match breakSub sep s with
      | none => [s]
      | some (a, b) => a :: splitOnSubF sep f b := rfl

theorem splitOnSubF_succ_some {sep s a b : List Char} (f : ℕ) (h : breakSub sep s = some (a, b)) :
    splitOnSubF sep (f + 1) s = a :: splitOnSubF sep f b := by
  show (match breakSub sep s with
        | none => [s]
        | some (a, b) => a :: splitOnSubF sep f b) = _
  rw [h]

theorem splitOnSubF_succ_none {sep s : List Char} (f : ℕ) (h : breakSub sep s = none) :
    splitOnSubF sep (f + 1) s = [s] := by
  show (match breakSub sep s with
        | none => [s]
        | some (a, b) => a :: splitOnSubF sep f b) = _
  rw [h]

theorem extract_wrapFenced (pre body post : List Char)
    (hpre : ∀ c ∈ pre, c ≠ btChar) (hbody : ∀ c ∈ body, c ≠ btChar)
    (hpost : ∀ c ∈ post, c ≠ btChar) :
    extractJsonStr (wrapFenced pre body post) = '\n' :: (body ++ ['\n']) := by
  have hmid : ∀ c ∈ ('\n' :: (body ++ ['\n'])), c ≠ btChar := by
    intro c hc
    simp only [List.mem_cons, List.mem_append] at hc
    rcases hc with rfl | hc | rfl | h
    · decide
    · exact hbody c hc
    · decide
    · simp at h
  have htext : wrapFenced pre body post =
      (pre ++ fenceJson) ++ (('\n' :: (body ++ ['\n'])) ++ (fenceTicks ++ post)) := by
    simp [wrapFenced, List.append_assoc]
  have hbk : breakSub fenceJson (wrapFenced pre body post) =
      some (pre, ('\n' :: (body ++ ['\n'])) ++ (fenceTicks ++ post)) := by
    rw [htext, fenceJson_eq]
    exact breakSub_append (sChars "``json") pre
      (('\n' :: (body ++ ['\n'])) ++ (fenceTicks ++ post)) hpre
  have hhas : hasSub fenceJson (wrapFenced pre body post) = true := by
    unfold hasSub; rw [hbk]; rfl
  have hbk2 := breakSub_fj_mid hmid hpost
  have hft_tail : breakSub fenceTicks (('\n' :: (body ++ ['\n'])) ++ (fenceTicks ++ post)) =
      some ('\n' :: (body ++ ['\n']), post) := breakSub_ft_mid post hmid
  have hft_mid : breakSub fenceTicks ('\n' :: (body ++ ['\n'])) = none := breakSub_ft_none hmid
  have hlen : (wrapFenced pre body post).length = ((wrapFenced pre body post).length - 1) + 1 := by
    have hpos : 0 < (wrapFenced pre body post).length := by
      rw [htext]
      simp [List.length_append]
    omega
  unfold extractJsonStr
  rw [if_pos hhas]
  unfold splitOnSub
  rw [splitOnSubF_succ_some _ hbk]
  simp only [List.getD_cons_succ, List.getD_cons_zero]
  rw [hlen]
  by_cases hj : (sChars "json").isPrefixOf post = true
  · have hsome : breakSub fenceJson (('\n' :: (body ++ ['\n'])) ++ (fenceTicks ++ post)) =
        some ('\n' :: (body ++ ['\n']), post.drop 4) := by
      rw [hbk2, if_pos hj]
    rw [splitOnSubF_succ_some _ hsome]
    simp only [List.getD_cons_zero]
    rw [splitOnSubF_succ_none _ hft_mid]
    rfl
  · have hnone : breakSub fenceJson (('\n' :: (body ++ ['\n'])) ++ (fenceTicks ++ post)) =
        none := by
      rw [hbk2, if_neg hj]
    rw [splitOnSubF_succ_none _ hnone]
    simp only [List.getD_cons_zero]
    rw [splitOnSubF_succ_some _ hft_tail]
    rfl

/-! ### Backtick-freeness of the serialisation -/

theorem toDigitChar_ne_bt {d : ℕ} (hd : d < 10) : toDigitChar d ≠ btChar := by
  interval_cases d <;> decide

theorem hexDigitChar_ne_bt {d : ℕ} (hd : d < 16) : hexDigitChar d ≠ btChar := by
  interval_cases d <;> decide

theorem natToChars_no_bt (n : ℕ) : ∀ c ∈ natToChars n, c ≠ btChar := by
  intro c hc
  unfold natToChars at hc
  split at hc
  · simp only [List.mem_singleton] at hc
    subst hc; decide
  · simp only [List.mem_reverse, List.mem_map] at hc
    obtain ⟨d, hd, rfl⟩ := hc
    exact toDigitChar_ne_bt (Nat.digits_lt_base (by norm_num) hd)

theorem intToChars_no_bt (i : ℤ) : ∀ c ∈ intToChars i, c ≠ btChar := by
  intro c hc
  unfold intToChars at hc
  split at hc
  · simp only [List.mem_cons] at hc
    rcases hc with rfl | hc
    · decide
    · exact natToChars_no_bt _ c hc
  · exact natToChars_no_bt _ c hc

theorem escChar_no_bt {c : Char} (h : c ≠ btChar) : ∀ x ∈ escChar c, x ≠ btChar := by
  intro x hx
  unfold escChar at hx
  split_ifs at hx with h1 h2 h3
  · simp only [List.mem_cons, List.not_mem_nil, or_false] at hx
    rcases hx with rfl | rfl <;> decide
  · simp only [List.mem_cons, List.not_mem_nil, or_false] at hx
    rcases hx with rfl | rfl <;> decide
  · simp only [List.mem_cons, List.not_mem_nil, or_false] at hx
    rcases hx with rfl | rfl | rfl | rfl | rfl | rfl
    · decide
    · decide
    · decide
    · decide
    · exact hexDigitChar_ne_bt (by omega)
    · exact hexDigitChar_ne_bt (Nat.mod_lt _ (by norm_num))
  · simp only [List.mem_cons, List.not_mem_nil, or_false] at hx
    subst hx; exact h

theorem escChars_no_bt {s : List Char} (h : ∀ c ∈ s, c ≠ btChar) :
    ∀ x ∈ escChars s, x ≠ btChar := by
  induction s with
  | nil => intro x hx; simp [escChars] at hx
  | cons c t ih =>
    intro x hx
    simp only [escChars, List.mem_append] at hx
    rcases hx with hx | hx
    · exact escChar_no_bt (h c (by simp)) x hx
    · exact ih (fun y hy => h y (by simp [hy])) x hx

theorem strLit_no_bt {s : List Char} (h : ∀ c ∈ s, c ≠ btChar) :
    ∀ x ∈ strLit s, x ≠ btChar := by
  intro x hx
  simp only [strLit, List.mem_cons, List.mem_append, List.not_mem_nil, or_false] at hx
  rcases hx with rfl | hx | rfl
  · decide
  · exact escChars_no_bt h x hx
  · decide

mutual
theorem noBt_stringifyV (v : JVal) (h : noBtV v = true) : ∀ c ∈ stringifyV v, c ≠ btChar := by
  cases v with
  | jnull => decide
  | jnan => decide
  | jbool b => cases b <;> decide
  | jnum q => exact intToChars_no_bt q.num
  | jstr s =>
    have h2 : btChar ∉ s := by simpa [noBtV] using h
    exact strLit_no_bt (fun c hc he => h2 (he ▸ hc))
  | jarr xs =>
    intro c hc
    simp only [stringifyV, List.mem_cons, List.mem_append, List.not_mem_nil, or_false] at hc
    rcases hc with rfl | hc | rfl
    · decide
    · exact noBt_stringifyA xs (by simpa [noBtV] using h) c hc
    · decide
  | jobj fs =>
    intro c hc
    simp only [stringifyV, List.mem_cons, List.mem_append, List.not_mem_nil, or_false] at hc
    rcases hc with rfl | hc | rfl
    · decide
    · exact noBt_stringifyO fs (by simpa [noBtV] using h) c hc
    · decide
theorem noBt_stringifyA (xs : JArr) (h : noBtA xs = true) :
    ∀ c ∈ stringifyA xs, c ≠ btChar := by
  cases xs with
  | nil => intro c hc; simp [stringifyA] at hc
  | cons v tl =>
    rw [noBtA, Bool.and_eq_true] at h
    obtain ⟨hv, htl⟩ := h
    cases tl with
    | nil => exact noBt_stringifyV v hv
    | cons w tw =>
      intro c hc
      simp only [stringifyA, List.mem_append, List.mem_cons] at hc
      rcases hc with hc | rfl | hc
      · exact noBt_stringifyV v hv c hc
      · decide
      · exact noBt_stringifyA (.cons w tw) htl c hc
theorem noBt_stringifyO (fs : JObj) (h : noBtO fs = true) :
    ∀ c ∈ stringifyO fs, c ≠ btChar := by
  cases fs with
  | nil => intro c hc; simp [stringifyO] at hc
  | cons k v tl =>
    rw [noBtO, Bool.and_eq_true, Bool.and_eq_true] at h
    obtain ⟨⟨hk, hv⟩, htl⟩ := h
    have hk2 : btChar ∉ k := by simpa using hk
    have hkk : ∀ c ∈ strLit k, c ≠ btChar := strLit_no_bt (fun c hc he => hk2 (he ▸ hc))
    cases tl with
    | nil =>
      intro c hc
      simp only [stringifyO, List.mem_append, List.mem_cons] at hc
      rcases hc with hc | rfl | hc
      · exact hkk c hc
      · decide
      · exact noBt_stringifyV v hv c hc
    | cons k2 v2 tw =>
      intro c hc
      simp only [stringifyO, List.mem_append, List.mem_cons] at hc
      rcases hc with hc | rfl | hc | rfl | hc
      · exact hkk c hc
      · decide
      · exact noBt_stringifyV v hv c hc
      · decide
      · exact noBt_stringifyO (.cons k2 v2 tw) htl c hc
end

/-! ### Property access and assignment -/

theorem jobjGet_eq_none_of_not_has (fs : JObj) (k : List Char) (h : jobjHas fs k = false) :
    jobjGet fs k = none := by
  cases fs with
  | nil => rfl
  | cons k1 w t =>
    rw [jobjHas, Bool.or_eq_false_iff] at h
    obtain ⟨h1, h2⟩ := h
    rw [jobjGet, jobjGet_eq_none_of_not_has t k h2]
    rw [if_neg (of_decide_eq_false h1)]

theorem jobjGet_jobjReplace_not_has (t0 : JObj) (k : List Char) (v : JVal)
    (h : jobjHas t0 k = false) : jobjGet (jobjReplace t0 k v) k = none := by
  cases t0 with
  | nil => rfl
  | cons k1 w t =>
    rw [jobjHas, Bool.or_eq_false_iff] at h
    obtain ⟨h1, h2⟩ := h
    rw [jobjReplace, jobjGet, jobjGet_jobjReplace_not_has t k v h2]
    rw [if_neg (of_decide_eq_false h1)]

theorem jobjGet_jobjReplace_same (fs : JObj) (k : List Char) (v : JVal)
    (h : jobjHas fs k = true) : jobjGet (jobjReplace fs k v) k = some v := by
  cases fs with
  | nil => simp [jobjHas] at h
  | cons k1 w t =>
    by_cases ht : jobjHas t k = true
    · rw [jobjReplace, jobjGet, jobjGet_jobjReplace_same t k v ht]
    · have ht2 : jobjHas t k = false := Bool.eq_false_iff.mpr ht
      rw [jobjHas, ht2, Bool.or_false] at h
      have hk : k1 = k := of_decide_eq_true h
      rw [jobjReplace, jobjGet, jobjGet_jobjReplace_not_has t k v ht2]
      rw [if_pos hk, if_pos hk]

theorem jobjGet_jobjAppend_same (fs : JObj) (k : List Char) (v : JVal) :
    jobjGet (jobjAppend fs k v) k = some v := by
  cases fs with
  | nil => simp [jobjAppend, jobjGet]
  | cons k1 w t =>
    rw [jobjAppend, jobjGet, jobjGet_jobjAppend_same t k v]

theorem jobjGet_jobjSet_same (fs : JObj) (k : List Char) (v : JVal) :
    jobjGet (jobjSet fs k v) k = some v := by
  unfold jobjSet
  by_cases h : jobjHas fs k = true
  · rw [if_pos h]
    exact jobjGet_jobjReplace_same fs k v h
  · rw [if_neg h]
    exact jobjGet_jobjAppend_same fs k v

theorem jobjGet_jobjReplace_other (fs : JObj) (k key : List Char) (v : JVal)
    (h : key ≠ k) : jobjGet (jobjReplace fs k v) key = jobjGet fs key := by
  cases fs with
  | nil => rfl
  | cons k1 w t =>
    rw [jobjReplace, jobjGet, jobjGet_jobjReplace_other t k key v h, jobjGet]
    cases jobjGet t key with
    | some r => rfl
    | none =>
      by_cases hk : k1 = key
      · rw [if_pos hk, if_pos hk]
        have : ¬k1 = k := fun hh => h (hk ▸ hh ▸ rfl)
        rw [if_neg this]
      · rw [if_neg hk, if_neg hk]

theorem jobjGet_jobjAppend_other (fs : JObj) (k key : List Char) (v : JVal)
    (h : key ≠ k) : jobjGet (jobjAppend fs k v) key = jobjGet fs key := by
  cases fs with
  | nil =>
    show jobjGet (JObj.cons k v .nil) key = none
    rw [jobjGet]
    show (if k = key then some v else none) = none
    rw [if_neg (fun hh => h hh.symm)]
  | cons k1 w t =>
    rw [jobjAppend, jobjGet, jobjGet_jobjAppend_other t k key v h, jobjGet]

theorem jobjGet_jobjSet_other (fs : JObj) (k key : List Char) (v : JVal)
    (h : key ≠ k) : jobjGet (jobjSet fs k v) key = jobjGet fs key := by
  unfold jobjSet
  by_cases hh : jobjHas fs k = true
  · rw [if_pos hh]
    exact jobjGet_jobjReplace_other fs k key v h
  · rw [if_neg hh]
    exact jobjGet_jobjAppend_other fs k key v h

theorem truthyOpt_isSome {o : Option JVal} (h : truthyOpt o = true) : o.isSome = true := by
  cases o with
  | none => simp [truthyOpt] at h
  | some v => rfl

theorem jget_obj_of_truthy {p : JVal} {k : List Char} (h : truthyOpt (jget p k) = true) :
    ∃ fs, p = JVal.jobj fs := by
  cases p with
  | jobj fs => exact ⟨fs, rfl⟩
  | jnull => simp [jget, truthyOpt] at h
  | jnan => simp [jget, truthyOpt] at h
  | jbool b => simp [jget, truthyOpt] at h
  | jnum q => simp [jget, truthyOpt] at h
  | jstr s => simp [jget, truthyOpt] at h
  | jarr xs => simp [jget, truthyOpt] at h

/-! ### Structure of the validation and injection step -/

theorem validateAndInject_fail {p : JVal}
    (h : truthyOpt (jget p keyScores) = false ∨ truthyOpt (jget p keyPriorityRec) = false) :
    validateAndInject p = none := by
  unfold validateAndInject
  rcases h with h | h <;> rw [h] <;> simp

theorem validateAndInject_pass {p : JVal}
    (ha : truthyOpt (jget p keyScores) = true)
    (hb : truthyOpt (jget p keyPriorityRec) = true)
    (hop : truthyOpt ((jget p keyScores).bind (fun sv => jget sv keyOverall)) = true) :
    validateAndInject p = some p := by
  unfold validateAndInject
  rw [ha, hb, hop]
  simp

theorem validateAndInject_inject {fs gs : JObj}
    (hs : jobjGet fs keyScores = some (JVal.jobj gs))
    (hb : truthyOpt (jobjGet fs keyPriorityRec) = true)
    (hop : truthyOpt (jobjGet gs keyOverall) = false) :
    validateAndInject (JVal.jobj fs) =
      some (JVal.jobj (jobjSet fs keyScores
        (JVal.jobj (jobjSet gs keyOverall
          (numOrNan (calculateOverallPriority (JVal.jobj gs))))))) := by
  have hs2 : jget (JVal.jobj fs) keyScores = some (JVal.jobj gs) := hs
  have hb2 : truthyOpt (jget (JVal.jobj fs) keyPriorityRec) = true := hb
  unfold validateAndInject
  rw [hs2, hb2]
  have h1 : (!truthyOpt (some (JVal.jobj gs)) || !true) = false := rfl
  rw [h1, if_neg (show ¬(false = true) by decide)]
  have h2 : truthyOpt ((some (JVal.jobj gs)).bind (fun sv => jget sv keyOverall)) = false := by
    show truthyOpt (jget (JVal.jobj gs) keyOverall) = false
    exact hop
  rw [h2, if_neg (show ¬(false = true) by decide)]
  rfl

theorem validateAndInject_some (p v : JVal) (h : validateAndInject p = some v) :
    ∃ fs gs, v = JVal.jobj fs ∧ jobjGet fs keyScores = some (JVal.jobj gs) ∧
      (jobjGet fs keyPriorityRec).isSome = true ∧
      (jobjGet gs keyOverall).isSome = true ∧
      (v = p ∨ ∃ gs0 : JObj, jget p keyScores = some (JVal.jobj gs0) ∧
        jobjGet gs keyOverall = some (numOrNan (calculateOverallPriority (JVal.jobj gs0)))) := by
  unfold validateAndInject at h
  split_ifs at h with h1 h2
  · injection h with hv
    subst hv
    have h1' : (!truthyOpt (jget p keyScores) || !truthyOpt (jget p keyPriorityRec)) = false :=
      Bool.eq_false_iff.mpr h1
    rw [Bool.or_eq_false_iff] at h1'
    obtain ⟨ha, hb⟩ := h1'
    rw [Bool.not_eq_false'] at ha hb
    obtain ⟨fs, rfl⟩ := jget_obj_of_truthy ha
    cases hsv : jobjGet fs keyScores with
    | none =>
      have hsv2 : jget (JVal.jobj fs) keyScores = none := hsv
      rw [hsv2] at h2
      simp [truthyOpt] at h2
    | some sv =>
      have hsv2 : jget (JVal.jobj fs) keyScores = some sv := hsv
      rw [hsv2] at h2
      have h2' : truthyOpt (jget sv keyOverall) = true := h2
      obtain ⟨gs, rfl⟩ := jget_obj_of_truthy h2'
      exact ⟨fs, gs, rfl, hsv, truthyOpt_isSome hb, truthyOpt_isSome h2', Or.inl rfl⟩
  · have h1' : (!truthyOpt (jget p keyScores) || !truthyOpt (jget p keyPriorityRec)) = false :=
      Bool.eq_false_iff.mpr h1
    rw [Bool.or_eq_false_iff] at h1'
    obtain ⟨ha, hb⟩ := h1'
    rw [Bool.not_eq_false'] at ha hb
    obtain ⟨fs0, rfl⟩ := jget_obj_of_truthy ha
    cases hsv : jobjGet fs0 keyScores with
    | none =>
      have hsv2 : jget (JVal.jobj fs0) keyScores = none := hsv
      rw [hsv2] at ha
      simp [truthyOpt] at ha
    | some sv =>
      have hsv2 : jget (JVal.jobj fs0) keyScores = some sv := hsv
      rw [hsv2] at h
      cases sv with
      | jobj gs0 =>
        have h3 : some (JVal.jobj (jobjSet fs0 keyScores (JVal.jobj (jobjSet gs0 keyOverall
            (numOrNan (calculateOverallPriority (JVal.jobj gs0))))))) = some v := h
        injection h3 with h4
        refine ⟨jobjSet fs0 keyScores (JVal.jobj (jobjSet gs0 keyOverall
            (numOrNan (calculateOverallPriority (JVal.jobj gs0))))),
          jobjSet gs0 keyOverall (numOrNan (calculateOverallPriority (JVal.jobj gs0))),
          h4.symm, ?_, ?_, ?_, Or.inr ⟨gs0, hsv2, ?_⟩⟩
        · exact jobjGet_jobjSet_same fs0 keyScores _
        · rw [jobjGet_jobjSet_other fs0 keyScores keyPriorityRec _ (by decide)]
          exact truthyOpt_isSome hb
        · rw [jobjGet_jobjSet_same]
          rfl
        · exact jobjGet_jobjSet_same gs0 keyOverall _
      | jnull => simp [jset] at h
      | jnan => simp [jset] at h
      | jbool b => simp [jset] at h
      | jnum q => simp [jset] at h
      | jstr s => simp [jset] at h
      | jarr xs => simp [jset] at h

/-! ### The calculator on the canonical scores shape -/

theorem jobjGet_consOpt_ne (k key : List Char) (v : Option JVal) (t : JObj) (h : k ≠ key) :
    jobjGet (consOpt k v t) key = jobjGet t key := by
  cases v with
  | none => rfl
  | some w =>
    rw [consOpt, jobjGet]
    cases jobjGet t key with
    | some r => rfl
    | none => rw [if_neg h]

theorem jobjGet_consOpt_self (k : List Char) (v : Option JVal) (t : JObj)
    (h : jobjGet t k = none) : jobjGet (consOpt k v t) k = v := by
  cases v with
  | none => exact h
  | some w =>
    rw [consOpt, jobjGet, h]
    rw [if_pos rfl]

theorem jget_mkScores_bi (bi sf ccv es : Option ℚ) (esize : Option (List Char)) :
    jget (mkScores bi sf ccv es esize) keyBI = bi.map JVal.jnum := by
  simp only [mkScores, jget]
  rw [jobjGet_consOpt_self]
  rw [jobjGet_consOpt_ne _ _ _ _ (by decide), jobjGet_consOpt_ne _ _ _ _ (by decide),
    jobjGet_consOpt_ne _ _ _ _ (by decide), jobjGet_consOpt_ne _ _ _ _ (by decide)]
  rfl

theorem jget_mkScores_sf (bi sf ccv es : Option ℚ) (esize : Option (List Char)) :
    jget (mkScores bi sf ccv es esize) keySF = sf.map JVal.jnum := by
  simp only [mkScores, jget]
  rw [jobjGet_consOpt_ne _ _ _ _ (by decide)]
  rw [jobjGet_consOpt_self]
  rw [jobjGet_consOpt_ne _ _ _ _ (by decide), jobjGet_consOpt_ne _ _ _ _ (by decide),
    jobjGet_consOpt_ne _ _ _ _ (by decide)]
  rfl

theorem jget_mkScores_ccv (bi sf ccv es : Option ℚ) (esize : Option (List Char)) :
    jget (mkScores bi sf ccv es esize) keyCCV = ccv.map JVal.jnum := by
  simp only [mkScores, jget]
  rw [jobjGet_consOpt_ne _ _ _ _ (by decide), jobjGet_consOpt_ne _ _ _ _ (by decide)]
  rw [jobjGet_consOpt_self]
  rw [jobjGet_consOpt_ne _ _ _ _ (by decide), jobjGet_consOpt_ne _ _ _ _ (by decide)]
  rfl

theorem jget_mkScores_effscore (bi sf ccv es : Option ℚ) (esize : Option (List Char)) :
    jget (mkScores bi sf ccv es esize) keyEffScore = es.map JVal.jnum := by
  simp only [mkScores, jget]
  rw [jobjGet_consOpt_ne _ _ _ _ (by decide), jobjGet_consOpt_ne _ _ _ _ (by decide),
    jobjGet_consOpt_ne _ _ _ _ (by decide)]
  rw [jobjGet_consOpt_self]
  rw [jobjGet_consOpt_ne _ _ _ _ (by decide)]
  rfl

theorem jget_mkScores_effsize (bi sf ccv es : Option ℚ) (esize : Option (List Char)) :
    jget (mkScores bi sf ccv es esize) keyEffSize = esize.map JVal.jstr := by
  simp only [mkScores, jget]
  rw [jobjGet_consOpt_ne _ _ _ _ (by decide), jobjGet_consOpt_ne _ _ _ _ (by decide),
    jobjGet_consOpt_ne _ _ _ _ (by decide), jobjGet_consOpt_ne _ _ _ _ (by decide)]
  rw [jobjGet_consOpt_self]
  rfl

theorem scoreTerm_some_num (p : JVal) (k : List Char) (q : ℚ)
    (h : jget p k = some (JVal.jnum q)) : scoreTerm p k = some q := by
  unfold scoreTerm
  rw [h]
  by_cases hq : q = 0
  · subst hq
    simp [jsTruthy]
  · simp [jsTruthy, toNumberJS, hq]

theorem scoreTerm_none (p : JVal) (k : List Char) (h : jget p k = none) :
    scoreTerm p k = some 0 := by
  unfold scoreTerm
  rw [h]

theorem scoreTerm_mkScores_bi (bi sf ccv es : Option ℚ) (esize : Option (List Char)) :
    scoreTerm (mkScores bi sf ccv es esize) keyBI = some (bi.getD 0) := by
  cases bi with
  | none => exact scoreTerm_none _ _ (by rw [jget_mkScores_bi]; rfl)
  | some q => exact scoreTerm_some_num _ _ q (by rw [jget_mkScores_bi]; rfl)

theorem scoreTerm_mkScores_sf (bi sf ccv es : Option ℚ) (esize : Option (List Char)) :
    scoreTerm (mkScores bi sf ccv es esize) keySF = some (sf.getD 0) := by
  cases sf with
  | none => exact scoreTerm_none _ _ (by rw [jget_mkScores_sf]; rfl)
  | some q => exact scoreTerm_some_num _ _ q (by rw [jget_mkScores_sf]; rfl)

theorem scoreTerm_mkScores_ccv (bi sf ccv es : Option ℚ) (esize : Option (List Char)) :
    scoreTerm (mkScores bi sf ccv es esize) keyCCV = some (ccv.getD 0) := by
  cases ccv with
  | none => exact scoreTerm_none _ _ (by rw [jget_mkScores_ccv]; rfl)
  | some q => exact scoreTerm_some_num _ _ q (by rw [jget_mkScores_ccv]; rfl)

theorem effortSizeScore_ne_zero {sz : List Char} {q : ℚ} (h : effortSizeScore sz = some q) :
    q ≠ 0 := by
  unfold effortSizeScore at h
  split_ifs at h <;> (injection h with h2; subst h2; norm_num)

theorem effortFallback_mkScores (bi sf ccv es : Option ℚ) (esize : Option (List Char)) :
    effortFallback (mkScores bi sf ccv es esize) = specEffort none esize := by
  unfold effortFallback
  rw [jget_mkScores_effsize]
  cases esize with
  | none => rfl
  | some sz =>
    show (match effortSizeScore sz with
          | some v => if v = 0 then 50 else v
          | none => 50) = _
    cases hv : effortSizeScore sz with
    | none =>
      show (50 : ℚ) = specEffort none (some sz)
      show (50 : ℚ) = (match effortSizeScore sz with | some v => v | none => (50 : ℚ))
      rw [hv]
    | some q =>
      show (if q = 0 then (50 : ℚ) else q) = specEffort none (some sz)
      rw [if_neg (effortSizeScore_ne_zero hv)]
      show q = (match effortSizeScore sz with | some v => v | none => (50 : ℚ))
      rw [hv]

theorem effortScoreVal_mkScores (bi sf ccv es : Option ℚ) (esize : Option (List Char)) :
    effortScoreVal (mkScores bi sf ccv es esize) = some (codeEffort es esize) := by
  unfold effortScoreVal
  rw [jget_mkScores_effscore]
  cases es with
  | none =>
    show some (effortFallback _) = some (codeEffort none esize)
    rw [effortFallback_mkScores]
    rfl
  | some e =>
    show (if jsTruthy (JVal.jnum e) then toNumberJS (JVal.jnum e)
          else some (effortFallback _)) = some (codeEffort (some e) esize)
    by_cases he : e = 0
    · subst he
      rw [if_neg (by simp [jsTruthy]), effortFallback_mkScores]
      rfl
    · rw [if_pos (by simp [jsTruthy, he])]
      show some e = some (codeEffort (some e) esize)
      rw [codeEffort, if_neg he]

theorem calcOverall_mkScores (bi sf ccv es : Option ℚ) (esize : Option (List Char)) :
    calculateOverallPriority (mkScores bi sf ccv es esize) =
      some (jsRound (weightedFormula (bi.getD 0) (sf.getD 0) (ccv.getD 0)
        (codeEffort es esize))) := by
  unfold calculateOverallPriority
  rw [scoreTerm_mkScores_bi, scoreTerm_mkScores_sf, scoreTerm_mkScores_ccv,
    effortScoreVal_mkScores]
  rfl

theorem weightedFormula_bounds {b s c e : ℚ} (hb0 : 0 ≤ b) (hb1 : b ≤ 100)
    (hs0 : 0 ≤ s) (hs1 : s ≤ 100) (hc0 : 0 ≤ c) (hc1 : c ≤ 100)
    (he0 : 0 ≤ e) (he1 : e ≤ 100) :
    0 ≤ weightedFormula b s c e ∧ weightedFormula b s c e ≤ 100 := by
  unfold weightedFormula
  constructor <;> linarith

theorem jsRound_bounds {q : ℚ} (h0 : 0 ≤ q) (h1 : q ≤ 100) :
    0 ≤ jsRound q ∧ jsRound q ≤ 100 := by
  rw [jsRound_eq_floor]
  constructor
  · exact Int.le_floor.mpr (by push_cast; linarith)
  · have h2 : ⌊q + 1/2⌋ < 101 := Int.floor_lt.mpr (by push_cast; linarith)
    omega

theorem effortSizeScore_bounds {sz : List Char} {q : ℚ} (h : effortSizeScore sz = some q) :
    0 ≤ q ∧ q ≤ 100 := by
  unfold effortSizeScore at h
  split_ifs at h <;> (injection h with h2; subst h2; norm_num)

theorem specEffort_none_bounds (esize : Option (List Char)) :
    0 ≤ specEffort none esize ∧ specEffort none esize ≤ 100 := by
  cases esize with
  | none => norm_num [specEffort]
  | some sz =>
    have he : specEffort none (some sz) =
        (match effortSizeScore sz with | some v => v | none => (50 : ℚ)) := rfl
    cases hv : effortSizeScore sz with
    | none =>
      rw [he, hv]
      show (0 : ℚ) ≤ 50 ∧ (50 : ℚ) ≤ 100
      norm_num
    | some q =>
      rw [he, hv]
      show 0 ≤ q ∧ q ≤ 100
      exact effortSizeScore_bounds hv

theorem codeEffort_bounds (es : Option ℚ) (esize : Option (List Char))
    (hes : ∀ q, es = some q → 0 ≤ q ∧ q ≤ 100) :
    0 ≤ codeEffort es esize ∧ codeEffort es esize ≤ 100 := by
  cases es with
  | none => exact specEffort_none_bounds esize
  | some e =>
    show 0 ≤ (if e = 0 then specEffort none esize else e) ∧
      (if e = 0 then specEffort none esize else e) ≤ 100
    by_cases he : e = 0
    · rw [if_pos he]
      exact specEffort_none_bounds esize
    · rw [if_neg he]
      exact hes e rfl

theorem codeEffort_eq_spec (es : Option ℚ) (esize : Option (List Char))
    (h : ∀ q, es = some q → q ≠ 0) : codeEffort es esize = specEffort es esize := by
  cases es with
  | none => rfl
  | some e =>
    show (if e = 0 then specEffort none esize else e) = specEffort (some e) esize
    rw [if_neg (h e rfl)]
    rfl

/-- C1: on a scores object whose present numeric fields lie in `[0,100]` (and
whose `effort_score`, when present, is nonzero — the amendment: a zero
`effort_score` falls through to the size table), `calculateOverallPriority`
returns exactly the specification's rounded weighted formula, with the three
impact scores defaulting to 0 and the effort falling back to the size table
and then to 50; and every returned value is an integer in `[0,100]`. -/
theorem c1_calculator_formula (bi sf ccv es : Option ℚ) (esize : Option (List Char))
    (hbi : ∀ q, bi = some q → 0 ≤ q ∧ q ≤ 100)
    (hsf : ∀ q, sf = some q → 0 ≤ q ∧ q ≤ 100)
    (hccv : ∀ q, ccv = some q → 0 ≤ q ∧ q ≤ 100)
    (hes : ∀ q, es = some q → (0 ≤ q ∧ q ≤ 100) ∧ q ≠ 0) :
    calculateOverallPriority (mkScores bi sf ccv es esize) =
      some (specOverall bi sf ccv es esize) ∧
    ∀ n, calculateOverallPriority (mkScores bi sf ccv es esize) = some n →
      0 ≤ n ∧ n ≤ 100 := by
  have hcode := calcOverall_mkScores bi sf ccv es esize
  have heq : codeEffort es esize = specEffort es esize :=
    codeEffort_eq_spec es esize (fun q hq => (hes q hq).2)
  constructor
  · rw [hcode, heq]
    rfl
  · intro n hn
    rw [hcode] at hn
    injection hn with hn2
    subst hn2
    have hgb : 0 ≤ bi.getD 0 ∧ bi.getD 0 ≤ 100 := by
      cases bi with
      | none => norm_num
      | some q => simpa using hbi q rfl
    have hgs : 0 ≤ sf.getD 0 ∧ sf.getD 0 ≤ 100 := by
      cases sf with
      | none => norm_num
      | some q => simpa using hsf q rfl
    have hgc : 0 ≤ ccv.getD 0 ∧ ccv.getD 0 ≤ 100 := by
      cases ccv with
      | none => norm_num
      | some q => simpa using hccv q rfl
    have hge : 0 ≤ codeEffort es esize ∧ codeEffort es esize ≤ 100 :=
      codeEffort_bounds es esize (fun q hq => (hes q hq).1)
    have hwf := weightedFormula_bounds hgb.1 hgb.2 hgs.1 hgs.2 hgc.1 hgc.2 hge.1 hge.2
    exact jsRound_bounds hwf.1 hwf.2

/-- Witness for C1 at the specification's own example
`{business_impact: 90, strategic_fit: 85, cross_client_value: 80, effort_size: "S"}`. -/
theorem c1_calculator_formula_witness :
    calculateOverallPriority (mkScores (some 90) (some 85) (some 80) none
        (some (sChars "S"))) =
      some (specOverall (some 90) (some 85) (some 80) none (some (sChars "S"))) ∧
    ∀ n, calculateOverallPriority (mkScores (some 90) (some 85) (some 80) none
        (some (sChars "S"))) = some n → 0 ≤ n ∧ n ≤ 100 :=
  c1_calculator_formula (some 90) (some 85) (some 80) none (some (sChars "S"))
    (fun q hq => by cases hq; norm_num)
    (fun q hq => by cases hq; norm_num)
    (fun q hq => by cases hq; norm_num)
    (fun q hq => Option.noConfusion hq)

/-- Counterexample to C1 as stated: a present `effort_score` of `0` is not
used as the effort input (the spec formula would give `0`); the `||` chain
lets it fall through to the size table, and the code returns `15`. -/
theorem c1_effort_zero_counterexample :
    calculateOverallPriority (mkScores none none none (some 0) (some (sChars "XS"))) =
      some 15 ∧
    specOverall none none none (some 0) (some (sChars "XS")) = 0 := by
  constructor <;> with_unfolding_all rfl

/-! ### Claim theorems on the parse step -/

/-- C3: when the extracted, repaired body parses to a JSON value, the parser
returns `null` whenever that value lacks a `scores` field or lacks a
`priority_recommendation` field; a non-null result always carries both
fields; and when the parsed value omitted `scores.overall_priority`, the
returned object carries the value computed by `calculateOverallPriority`
on the scores object. -/
theorem c3_validation_and_injection (text : List Char) (w : JVal)
    (hw : parseJson (repairBraces (trimChars (extractJsonStr text))) = some w) :
    ((jget w keyScores = none ∨ jget w keyPriorityRec = none) →
      parseAIResponse text = none) ∧
    (∀ v, parseAIResponse text = some v →
      (jget v keyScores).isSome = true ∧ (jget v keyPriorityRec).isSome = true) ∧
    (∀ gs, jget w keyScores = some (JVal.jobj gs) → jobjGet gs keyOverall = none →
      ∀ v, parseAIResponse text = some v →
        jget2 v keyScores keyOverall =
          some (numOrNan (calculateOverallPriority (JVal.jobj gs)))) := by
  have hpar : parseAIResponse text = validateAndInject w := by
    unfold parseAIResponse
    rw [hw]
  refine ⟨?_, ?_, ?_⟩
  · intro h
    rw [hpar]
    apply validateAndInject_fail
    rcases h with h | h
    · left; rw [h]; rfl
    · right; rw [h]; rfl
  · intro v hv
    rw [hpar] at hv
    obtain ⟨fs, gs, rfl, hscores, hpr, _, _⟩ := validateAndInject_some w _ hv
    constructor
    · show (jobjGet fs keyScores).isSome = true
      rw [hscores]; rfl
    · exact hpr
  · intro gs hgs hnone v hv
    rw [hpar] at hv
    obtain ⟨fs, gs2, rfl, hscores, hpr, hop, hdisj⟩ := validateAndInject_some w _ hv
    rcases hdisj with heq | ⟨gs0, hg0, hval⟩
    · subst heq
      have hsc2 : jobjGet fs keyScores = some (JVal.jobj gs) := hgs
      rw [hsc2] at hscores
      injection hscores with h1
      injection h1 with h2
      subst h2
      rw [hnone] at hop
      simp at hop
    · rw [hgs] at hg0
      injection hg0 with h1
      injection h1 with h2
      subst h2
      unfold jget2
      have hj1 : jget (JVal.jobj fs) keyScores = jobjGet fs keyScores := rfl
      rw [hj1, hscores]
      show jget (JVal.jobj gs2) keyOverall = _
      have hj2 : jget (JVal.jobj gs2) keyOverall = jobjGet gs2 keyOverall := rfl
      rw [hj2, hval]

/-- C5: every parse failure after extraction, trimming and brace repair is
caught and yields `null`; in particular non-JSON prose returns `null`.
(The function is total: no input throws.) -/
theorem c5_malformed_yields_null (text : List Char)
    (h : parseJson (repairBraces (trimChars (extractJsonStr text))) = none) :
    parseAIResponse text = none := by
  unfold parseAIResponse
  rw [h]

/-- Witness for C5 at the claim's own example of non-JSON prose. -/
theorem c5_malformed_yields_null_witness :
    parseAIResponse (sChars "Sorry, I couldn\x27t analyze this") = none :=
  c5_malformed_yields_null _ (by with_unfolding_all rfl)

/-- Witness for C3 at a concrete backend reply whose scores omit
`overall_priority`. -/
theorem c3_validation_and_injection_witness :
    ((jget (JVal.jobj (JObj.cons keyScores
          (JVal.jobj (JObj.cons keyBI (JVal.jnum 90) .nil))
          (JObj.cons keyPriorityRec (JVal.jstr (sChars "Standard")) .nil))) keyScores = none ∨
      jget (JVal.jobj (JObj.cons keyScores
          (JVal.jobj (JObj.cons keyBI (JVal.jnum 90) .nil))
          (JObj.cons keyPriorityRec (JVal.jstr (sChars "Standard")) .nil))) keyPriorityRec = none) →
      parseAIResponse (sChars "\x7b\x22scores\x22:\x7b\x22business_impact\x22:90\x7d,\x22priority_recommendation\x22:\x22Standard\x22\x7d") = none) ∧
    (∀ v, parseAIResponse (sChars "\x7b\x22scores\x22:\x7b\x22business_impact\x22:90\x7d,\x22priority_recommendation\x22:\x22Standard\x22\x7d") = some v →
      (jget v keyScores).isSome = true ∧ (jget v keyPriorityRec).isSome = true) ∧
    (∀ gs, jget (JVal.jobj (JObj.cons keyScores
          (JVal.jobj (JObj.cons keyBI (JVal.jnum 90) .nil))
          (JObj.cons keyPriorityRec (JVal.jstr (sChars "Standard")) .nil))) keyScores =
        some (JVal.jobj gs) → jobjGet gs keyOverall = none →
      ∀ v, parseAIResponse (sChars "\x7b\x22scores\x22:\x7b\x22business_impact\x22:90\x7d,\x22priority_recommendation\x22:\x22Standard\x22\x7d") = some v →
        jget2 v keyScores keyOverall =
          some (numOrNan (calculateOverallPriority (JVal.jobj gs)))) :=
  c3_validation_and_injection
    (sChars "\x7b\x22scores\x22:\x7b\x22business_impact\x22:90\x7d,\x22priority_recommendation\x22:\x22Standard\x22\x7d")
    (JVal.jobj (JObj.cons keyScores
      (JVal.jobj (JObj.cons keyBI (JVal.jnum 90) .nil))
      (JObj.cons keyPriorityRec (JVal.jstr (sChars "Standard")) .nil)))
    (by with_unfolding_all rfl)

/-- C4: on a truncated input that is a valid serialised object missing its
final closing brace, the parser never throws (it is a total function to an
option) and either returns `null` or returns an object that carries the
`scores` and `priority_recommendation` fields; the brace repair runs inside
the same guarded pipeline. -/
theorem c4_truncated_input_safe (fs : JObj) (text : List Char)
    (htr : stringifyV (JVal.jobj fs) = text ++ ['}']) :
    parseAIResponse text = none ∨
      ∃ v, parseAIResponse text = some v ∧ (jget v keyScores).isSome = true ∧
        (jget v keyPriorityRec).isSome = true := by
  cases hp : parseAIResponse text with
  | none => exact Or.inl rfl
  | some v =>
    right
    refine ⟨v, rfl, ?_⟩
    unfold parseAIResponse at hp
    cases hw : parseJson (repairBraces (trimChars (extractJsonStr text))) with
    | none =>
      rw [hw] at hp
      simp at hp
    | some w =>
      rw [hw] at hp
      have hp2 : validateAndInject w = some v := hp
      obtain ⟨fs2, gs2, rfl, hscores, hpr, _, _⟩ := validateAndInject_some w _ hp2
      constructor
      · show (jobjGet fs2 keyScores).isSome = true
        rw [hscores]; rfl
      · exact hpr

/-- Witness for C4 on the serialisation of a one-field object with its final
closing brace removed. -/
theorem c4_truncated_input_safe_witness :
    parseAIResponse (sChars "\x7b\x22scores\x22:\x7b\x22business_impact\x22:90\x7d") = none ∨
      ∃ v, parseAIResponse (sChars "\x7b\x22scores\x22:\x7b\x22business_impact\x22:90\x7d") = some v ∧
        (jget v keyScores).isSome = true ∧ (jget v keyPriorityRec).isSome = true :=
  c4_truncated_input_safe
    (JObj.cons keyScores (JVal.jobj (JObj.cons keyBI (JVal.jnum 90) .nil)) .nil)
    (sChars "\x7b\x22scores\x22:\x7b\x22business_impact\x22:90\x7d")
    (by with_unfolding_all rfl)

/-- C10: a parsed response that passes validation but carries a present,
falsy `scores.overall_priority` (such as `0`) has that value discarded: the
returned object carries the value computed by `calculateOverallPriority`
instead, so a backend-supplied overall priority of exactly `0` never
survives into the returned object. -/
theorem c10_falsy_overall_replaced (text : List Char) (fs gs : JObj)
    (hw : parseJson (repairBraces (trimChars (extractJsonStr text))) =
      some (JVal.jobj fs))
    (hs : jobjGet fs keyScores = some (JVal.jobj gs))
    (hb : truthyOpt (jobjGet fs keyPriorityRec) = true)
    (hpres : (jobjGet gs keyOverall).isSome = true)
    (hfalsy : truthyOpt (jobjGet gs keyOverall) = false) :
    parseAIResponse text =
      some (JVal.jobj (jobjSet fs keyScores (JVal.jobj (jobjSet gs keyOverall
        (numOrNan (calculateOverallPriority (JVal.jobj gs))))))) ∧
    ∀ v, parseAIResponse text = some v →
      jget2 v keyScores keyOverall =
        some (numOrNan (calculateOverallPriority (JVal.jobj gs))) := by
  have hinj := validateAndInject_inject hs hb hfalsy
  have hpar : parseAIResponse text = validateAndInject (JVal.jobj fs) := by
    unfold parseAIResponse
    rw [hw]
  constructor
  · rw [hpar, hinj]
  · intro v hv
    rw [hpar, hinj] at hv
    injection hv with hv2
    subst hv2
    unfold jget2
    have hj1 : jget (JVal.jobj (jobjSet fs keyScores (JVal.jobj (jobjSet gs keyOverall
        (numOrNan (calculateOverallPriority (JVal.jobj gs))))))) keyScores =
        jobjGet (jobjSet fs keyScores (JVal.jobj (jobjSet gs keyOverall
        (numOrNan (calculateOverallPriority (JVal.jobj gs)))))) keyScores := rfl
    rw [hj1, jobjGet_jobjSet_same]
    show jget (JVal.jobj (jobjSet gs keyOverall
      (numOrNan (calculateOverallPriority (JVal.jobj gs))))) keyOverall = _
    have hj2 : jget (JVal.jobj (jobjSet gs keyOverall
        (numOrNan (calculateOverallPriority (JVal.jobj gs))))) keyOverall =
        jobjGet (jobjSet gs keyOverall
        (numOrNan (calculateOverallPriority (JVal.jobj gs)))) keyOverall := rfl
    rw [hj2, jobjGet_jobjSet_same]

/-- Witness for C10 at a backend reply carrying `overall_priority: 0`. -/
theorem c10_falsy_overall_replaced_witness :
    parseAIResponse (sChars "\x7b\x22scores\x22:\x7b\x22overall_priority\x22:0\x7d,\x22priority_recommendation\x22:\x22Standard\x22\x7d") =
      some (JVal.jobj (jobjSet
        (JObj.cons keyScores (JVal.jobj (JObj.cons keyOverall (JVal.jnum 0) .nil))
          (JObj.cons keyPriorityRec (JVal.jstr (sChars "Standard")) .nil))
        keyScores (JVal.jobj (jobjSet (JObj.cons keyOverall (JVal.jnum 0) .nil) keyOverall
        (numOrNan (calculateOverallPriority
          (JVal.jobj (JObj.cons keyOverall (JVal.jnum 0) .nil)))))))) ∧
    ∀ v, parseAIResponse (sChars "\x7b\x22scores\x22:\x7b\x22overall_priority\x22:0\x7d,\x22priority_recommendation\x22:\x22Standard\x22\x7d") = some v →
      jget2 v keyScores keyOverall =
        some (numOrNan (calculateOverallPriority
          (JVal.jobj (JObj.cons keyOverall (JVal.jnum 0) .nil)))) :=
  c10_falsy_overall_replaced
    (sChars "\x7b\x22scores\x22:\x7b\x22overall_priority\x22:0\x7d,\x22priority_recommendation\x22:\x22Standard\x22\x7d")
    (JObj.cons keyScores (JVal.jobj (JObj.cons keyOverall (JVal.jnum 0) .nil))
      (JObj.cons keyPriorityRec (JVal.jstr (sChars "Standard")) .nil))
    (JObj.cons keyOverall (JVal.jnum 0) .nil)
    (by with_unfolding_all rfl)
    (by with_unfolding_all rfl)
    (by with_unfolding_all rfl)
    (by with_unfolding_all rfl)
    (by with_unfolding_all rfl)

/-- C6: round-trip of serialise, wrap in a json-tagged fence, and parse
(amended: the object is backtick-free with integral numbers and no
duplicate keys, the surrounding prose is backtick-free, and the `scores`,
`priority_recommendation` and `scores.overall_priority` fields are all
truthy — a falsy `overall_priority` is rewritten by the parser and breaks
the round trip). -/
theorem c6_wrap_parse_roundtrip (fs : JObj) (pre post : List Char)
    (hpre : ∀ c ∈ pre, c ≠ btChar) (hpost : ∀ c ∈ post, c ≠ btChar)
    (hwf : wfV (JVal.jobj fs) = true) (hnb : noBtV (JVal.jobj fs) = true)
    (hs : truthyOpt (jget (JVal.jobj fs) keyScores) = true)
    (hpr : truthyOpt (jget (JVal.jobj fs) keyPriorityRec) = true)
    (hop : truthyOpt ((jget (JVal.jobj fs) keyScores).bind
      (fun sv => jget sv keyOverall)) = true) :
    parseAIResponse (wrapFenced pre (stringifyV (JVal.jobj fs)) post) =
      some (JVal.jobj fs) := by
  have hnbchars : ∀ c ∈ stringifyV (JVal.jobj fs), c ≠ btChar := noBt_stringifyV _ hnb
  have hext := extract_wrapFenced pre (stringifyV (JVal.jobj fs)) post hpre hnbchars hpost
  have hshape : stringifyV (JVal.jobj fs) = '{' :: (stringifyO fs ++ ['}']) := rfl
  have htrim : trimChars ('\n' :: (stringifyV (JVal.jobj fs) ++ ['\n'])) =
      stringifyV (JVal.jobj fs) := by
    rw [hshape]
    exact trimChars_nl (by decide) _ (by decide)
  have hrep : repairBraces (stringifyV (JVal.jobj fs)) = stringifyV (JVal.jobj fs) := by
    rw [hshape]
    show repairBraces (('{' :: stringifyO fs) ++ ['}']) = ('{' :: stringifyO fs) ++ ['}']
    exact repairBraces_rbrace _
  have hpj := parseJson_stringifyV (JVal.jobj fs) hwf
  unfold parseAIResponse
  rw [hext, htrim, hrep, hpj]
  show validateAndInject (JVal.jobj fs) = some (JVal.jobj fs)
  exact validateAndInject_pass hs hpr hop

/-- Witness for C6 at a concrete analysis object wrapped in prose. -/
theorem c6_wrap_parse_roundtrip_witness :
    parseAIResponse (wrapFenced (sChars "Here is my analysis:")
      (stringifyV (JVal.jobj (JObj.cons keyScores
        (JVal.jobj (JObj.cons keyBI (JVal.jnum 90) (JObj.cons keyOverall (JVal.jnum 82) .nil)))
        (JObj.cons keyPriorityRec (JVal.jstr (sChars "Fast Track")) .nil))))
      (sChars " Thank you."))
      = some (JVal.jobj (JObj.cons keyScores
        (JVal.jobj (JObj.cons keyBI (JVal.jnum 90) (JObj.cons keyOverall (JVal.jnum 82) .nil)))
        (JObj.cons keyPriorityRec (JVal.jstr (sChars "Fast Track")) .nil))) :=
  c6_wrap_parse_roundtrip
    (JObj.cons keyScores
      (JVal.jobj (JObj.cons keyBI (JVal.jnum 90) (JObj.cons keyOverall (JVal.jnum 82) .nil)))
      (JObj.cons keyPriorityRec (JVal.jstr (sChars "Fast Track")) .nil))
    (sChars "Here is my analysis:") (sChars " Thank you.")
    (by decide) (by decide) (by with_unfolding_all rfl) (by with_unfolding_all rfl)
    (by with_unfolding_all rfl) (by with_unfolding_all rfl) (by with_unfolding_all rfl)

/-- Counterexample to C6 as stated: a well-formed analysis object whose
`overall_priority` is `0` is not returned unchanged — the parser rewrites
the field to the calculator's value `8`, so wrap-then-parse is not the
identity on it. -/
theorem c6_overall_zero_counterexample :
    parseAIResponse (wrapFenced (sChars "Here:")
      (stringifyV (JVal.jobj (JObj.cons keyScores
        (JVal.jobj (JObj.cons keyOverall (JVal.jnum 0) .nil))
        (JObj.cons keyPriorityRec (JVal.jstr (sChars "Standard")) .nil))))
      (sChars " done"))
      = some (JVal.jobj (JObj.cons keyScores
        (JVal.jobj (JObj.cons keyOverall (JVal.jnum 8) .nil))
        (JObj.cons keyPriorityRec (JVal.jstr (sChars "Standard")) .nil))) ∧
    (JVal.jobj (JObj.cons keyScores
        (JVal.jobj (JObj.cons keyOverall (JVal.jnum 8) .nil))
        (JObj.cons keyPriorityRec (JVal.jstr (sChars "Standard")) .nil))) ≠
      (JVal.jobj (JObj.cons keyScores
        (JVal.jobj (JObj.cons keyOverall (JVal.jnum 0) .nil))
        (JObj.cons keyPriorityRec (JVal.jstr (sChars "Standard")) .nil))) := by
  constructor
  · with_unfolding_all rfl
  · decide

/-! ### Dispatcher structure -/

theorem priorityClaudeStep_ok (t : List Char) (att : List Prov) :
    priorityClaudeStep (.ok t) att =
      match parseAIResponse t with
      | some parsed =>
        if truthyOpt (jget parsed keyScores) then
          ⟨some parsed, sChars "Claude Sonnet 3.5", att ++ [.claude]⟩
        else ⟨none, sChars "None - Both models failed", att ++ [.claude]⟩
      | none => ⟨none, sChars "None - Both models failed", att ++ [.claude]⟩ := rfl

theorem analyzePriority_ok_eq (t : List Char) (c : ProvResult) :
    analyzePriority (.ok t) c =
      match parseAIResponse t with
      | some parsed =>
        if truthyOpt (jget parsed keyScores) then
          ⟨some parsed, sChars "Gemini Flash 2.0", [.gemini]⟩
        else priorityClaudeStep c [.gemini]
      | none => priorityClaudeStep c [.gemini] := rfl

theorem priorityClaudeStep_attempts_ne_absent (c : ProvResult) (att : List Prov)
    (h : c ≠ .absent) : (priorityClaudeStep c att).attempts = att ++ [.claude] := by
  cases c with
  | absent => exact absurd rfl h
  | threw => rfl
  | ok t =>
    rw [priorityClaudeStep_ok]
    split
    · split_ifs <;> rfl
    · rfl

theorem priorityClaudeStep_attempts (c : ProvResult) (att : List Prov) :
    (priorityClaudeStep c att).attempts = att ∨
    (priorityClaudeStep c att).attempts = att ++ [.claude] := by
  by_cases h : c = .absent
  · subst h; exact Or.inl rfl
  · exact Or.inr (priorityClaudeStep_attempts_ne_absent c att h)

theorem themeClaudeStep_attempts_ne_absent (c : ProvResult) (att : List Prov)
    (h : c ≠ .absent) : (themeClaudeStep c att).attempts = att ++ [.claude] := by
  cases c with
  | absent => exact absurd rfl h
  | threw => rfl
  | ok t => rfl

theorem themeClaudeStep_attempts (c : ProvResult) (att : List Prov) :
    (themeClaudeStep c att).attempts = att ∨
    (themeClaudeStep c att).attempts = att ++ [.claude] := by
  by_cases h : c = .absent
  · subst h; exact Or.inl rfl
  · exact Or.inr (themeClaudeStep_attempts_ne_absent c att h)

theorem analyzePriority_attempts (g c : ProvResult) :
    (analyzePriority g c).attempts = [] ∨ (analyzePriority g c).attempts = [.claude] ∨
    (analyzePriority g c).attempts = [.gemini] ∨
    (analyzePriority g c).attempts = [.gemini, .claude] := by
  have hstep : ∀ att, (priorityClaudeStep c att).attempts = att ∨
      (priorityClaudeStep c att).attempts = att ++ [.claude] :=
    fun att => priorityClaudeStep_attempts c att
  cases g with
  | absent =>
    rcases hstep [] with h | h
    · exact Or.inl h
    · exact Or.inr (Or.inl h)
  | threw =>
    rcases hstep [.gemini] with h | h
    · exact Or.inr (Or.inr (Or.inl h))
    · exact Or.inr (Or.inr (Or.inr h))
  | ok t =>
    rw [analyzePriority_ok_eq]
    split
    · split_ifs
      · exact Or.inr (Or.inr (Or.inl rfl))
      · rcases hstep [.gemini] with h | h
        · exact Or.inr (Or.inr (Or.inl h))
        · exact Or.inr (Or.inr (Or.inr h))
    · rcases hstep [.gemini] with h | h
      · exact Or.inr (Or.inr (Or.inl h))
      · exact Or.inr (Or.inr (Or.inr h))

theorem classifyTheme_attempts (g c : ProvResult) :
    (classifyTheme g c).attempts = [] ∨ (classifyTheme g c).attempts = [.claude] ∨
    (classifyTheme g c).attempts = [.gemini] ∨
    (classifyTheme g c).attempts = [.gemini, .claude] := by
  cases g with
  | absent =>
    rcases themeClaudeStep_attempts c [] with h | h
    · exact Or.inl h
    · exact Or.inr (Or.inl h)
  | threw =>
    rcases themeClaudeStep_attempts c [.gemini] with h | h
    · exact Or.inr (Or.inr (Or.inl h))
    · exact Or.inr (Or.inr (Or.inr h))
  | ok t => exact Or.inr (Or.inr (Or.inl rfl))

/-- C7: in both dispatches no provider is ever attempted more than once (no
retry beyond the single primary-to-secondary fallback); when the primary
call throws the secondary is attempted exactly once (whenever its client
exists); a parsed-but-invalid primary reply also falls through to the
secondary; and when both providers fail the priority dispatch carries no
analysis and the failure marker, and the theme dispatch carries the
sentinel theme with the failure marker. -/
theorem c7_dispatch_fallback (g c : ProvResult) :
    ((analyzePriority g c).attempts.count .claude ≤ 1 ∧
     (analyzePriority g c).attempts.count .gemini ≤ 1 ∧
     (classifyTheme g c).attempts.count .claude ≤ 1 ∧
     (classifyTheme g c).attempts.count .gemini ≤ 1) ∧
    (g = .threw → c ≠ .absent →
      (analyzePriority g c).attempts = [.gemini, .claude] ∧
      (classifyTheme g c).attempts = [.gemini, .claude]) ∧
    (∀ t p, g = .ok t → parseAIResponse t = some p →
      truthyOpt (jget p keyScores) = false → c ≠ .absent →
      (analyzePriority g c).attempts = [.gemini, .claude]) ∧
    (g = .threw → c = .threw →
      (analyzePriority g c).analysis = none ∧
      (analyzePriority g c).modelUsed = sChars "None - Both models failed" ∧
      (classifyTheme g c).theme = sChars "THEME NOT IDENTIFIED" ∧
      (classifyTheme g c).modelUsed = sChars "None - Both models failed") := by
  refine ⟨?_, ?_, ?_, ?_⟩
  · rcases analyzePriority_attempts g c with h | h | h | h <;>
      rcases classifyTheme_attempts g c with h2 | h2 | h2 | h2 <;>
      rw [h, h2] <;> refine ⟨by decide, by decide, by decide, by decide⟩
  · rintro rfl hc
    constructor
    · show (priorityClaudeStep c [.gemini]).attempts = _
      rw [priorityClaudeStep_attempts_ne_absent c _ hc]
      rfl
    · show (themeClaudeStep c [.gemini]).attempts = _
      rw [themeClaudeStep_attempts_ne_absent c _ hc]
      rfl
  · rintro t p rfl hp ht hc
    have hred : analyzePriority (.ok t) c = priorityClaudeStep c [.gemini] := by
      rw [analyzePriority_ok_eq, hp]
      show (if truthyOpt (jget p keyScores) = true then _ else priorityClaudeStep c [.gemini]) = _
      rw [ht, if_neg (show ¬(false = true) by decide)]
    rw [hred, priorityClaudeStep_attempts_ne_absent c _ hc]
    rfl
  · rintro rfl rfl
    exact ⟨rfl, rfl, rfl, rfl⟩

/-- Witness for C7 with both providers throwing. -/
theorem c7_dispatch_fallback_witness :
    (((analyzePriority .threw .threw).attempts.count .claude ≤ 1 ∧
     (analyzePriority .threw .threw).attempts.count .gemini ≤ 1 ∧
     (classifyTheme .threw .threw).attempts.count .claude ≤ 1 ∧
     (classifyTheme .threw .threw).attempts.count .gemini ≤ 1) ∧
    (ProvResult.threw = .threw → ProvResult.threw ≠ .absent →
      (analyzePriority .threw .threw).attempts = [.gemini, .claude] ∧
      (classifyTheme .threw .threw).attempts = [.gemini, .claude]) ∧
    (∀ t p, ProvResult.threw = .ok t → parseAIResponse t = some p →
      truthyOpt (jget p keyScores) = false → ProvResult.threw ≠ .absent →
      (analyzePriority .threw .threw).attempts = [.gemini, .claude]) ∧
    (ProvResult.threw = .threw → ProvResult.threw = .threw →
      (analyzePriority .threw .threw).analysis = none ∧
      (analyzePriority .threw .threw).modelUsed = sChars "None - Both models failed" ∧
      (classifyTheme .threw .threw).theme = sChars "THEME NOT IDENTIFIED" ∧
      (classifyTheme .threw .threw).modelUsed = sChars "None - Both models failed")) :=
  c7_dispatch_fallback .threw .threw

/-! ### Orchestrator and handler structure -/

theorem processTicket_analysis (tg tc pg pc : ProvResult) :
    (processTicketWithFullTriage tg tc pg pc).analysis = none ∨
    ∃ a, (processTicketWithFullTriage tg tc pg pc).analysis = some a ∧
      (analyzePriority pg pc).analysis = some a := by
  simp only [processTicketWithFullTriage]
  split
  · rename_i a0 heq
    split_ifs with ht
    · exact Or.inr ⟨a0, rfl, heq⟩
    · exact Or.inl rfl
  · exact Or.inl rfl

theorem analyzePriority_analysis_some (g c : ProvResult) (a : JVal)
    (h : (analyzePriority g c).analysis = some a) : ∃ t, parseAIResponse t = some a := by
  have hstep : ∀ d att, (priorityClaudeStep d att).analysis = some a →
      ∃ t, parseAIResponse t = some a := by
    intro d att hd
    cases d with
    | absent => exact Option.noConfusion hd
    | threw => exact Option.noConfusion hd
    | ok t =>
      rw [priorityClaudeStep_ok] at hd
      cases hp : parseAIResponse t with
      | none => rw [hp] at hd; exact absurd hd (by simp)
      | some parsed =>
        rw [hp] at hd
        by_cases ht : truthyOpt (jget parsed keyScores) = true
        · have hd2 : some parsed = some a := by
            have : (if truthyOpt (jget parsed keyScores) = true then
                (⟨some parsed, sChars "Claude Sonnet 3.5", att ++ [.claude]⟩ : PriorityDispatch)
                else ⟨none, sChars "None - Both models failed", att ++ [.claude]⟩).analysis =
                some a := hd
            rw [if_pos ht] at this
            exact this
          injection hd2 with hd3
          exact ⟨t, hd3 ▸ hp⟩
        · have : (if truthyOpt (jget parsed keyScores) = true then
              (⟨some parsed, sChars "Claude Sonnet 3.5", att ++ [.claude]⟩ : PriorityDispatch)
              else ⟨none, sChars "None - Both models failed", att ++ [.claude]⟩).analysis =
              some a := hd
          rw [if_neg ht] at this
          exact absurd this (by simp)
  cases g with
  | absent => exact hstep c [] h
  | threw => exact hstep c [.gemini] h
  | ok t =>
    rw [analyzePriority_ok_eq] at h
    cases hp : parseAIResponse t with
    | none =>
      rw [hp] at h
      exact hstep c [.gemini] h
    | some parsed =>
      rw [hp] at h
      by_cases ht : truthyOpt (jget parsed keyScores) = true
      · have h2 : some parsed = some a := by
          have : (if truthyOpt (jget parsed keyScores) = true then
              (⟨some parsed, sChars "Gemini Flash 2.0", [.gemini]⟩ : PriorityDispatch)
              else priorityClaudeStep c [.gemini]).analysis = some a := h
          rw [if_pos ht] at this
          exact this
        injection h2 with h3
        exact ⟨t, h3 ▸ hp⟩
      · have h2 : (priorityClaudeStep c [.gemini]).analysis = some a := by
          have : (if truthyOpt (jget parsed keyScores) = true then
              (⟨some parsed, sChars "Gemini Flash 2.0", [.gemini]⟩ : PriorityDispatch)
              else priorityClaudeStep c [.gemini]).analysis = some a := h
          rw [if_neg ht] at this
          exact this
        exact hstep c [.gemini] h2

/-- C2: whenever the returned triage outcome carries an analysis, that
analysis is an object whose `scores` field is an object that carries an
`overall_priority` binding (amended: the value is either the
backend-supplied one, passed through unvalidated, or the one injected by
the calculator — the range `[0,100]` is not enforced on backend-supplied
values). -/
theorem c2_overall_present (tg tc pg pc : ProvResult) (a : JVal)
    (h : (processTicketWithFullTriage tg tc pg pc).analysis = some a) :
    ∃ fs gs, a = JVal.jobj fs ∧ jobjGet fs keyScores = some (JVal.jobj gs) ∧
      (jobjGet gs keyOverall).isSome = true := by
  rcases processTicket_analysis tg tc pg pc with hnone | ⟨a0, hsome, hpa⟩
  · rw [hnone] at h
    exact Option.noConfusion h
  · rw [hsome] at h
    injection h with h2
    subst h2
    obtain ⟨t, hp⟩ := analyzePriority_analysis_some pg pc a0 hpa
    unfold parseAIResponse at hp
    cases hw : parseJson (repairBraces (trimChars (extractJsonStr t))) with
    | none =>
      rw [hw] at hp
      simp at hp
    | some w =>
      rw [hw] at hp
      have hp2 : validateAndInject w = some a0 := hp
      obtain ⟨fs, gs, rfl, hsc, _, hops, _⟩ := validateAndInject_some w _ hp2
      exact ⟨fs, gs, rfl, hsc, hops⟩

/-- Witness for C2 at a concrete outcome whose backend reply supplies
`overall_priority: 82`. -/
theorem c2_overall_present_witness :
    ∃ fs gs, (JVal.jobj (JObj.cons keyScores
        (JVal.jobj (JObj.cons keyOverall (JVal.jnum 82) .nil))
        (JObj.cons keyPriorityRec (JVal.jstr (sChars "Fast Track")) .nil))) = JVal.jobj fs ∧
      jobjGet fs keyScores = some (JVal.jobj gs) ∧
      (jobjGet gs keyOverall).isSome = true :=
  c2_overall_present .threw .threw
    (.ok (sChars "\x7b\x22scores\x22:\x7b\x22overall_priority\x22:82\x7d,\x22priority_recommendation\x22:\x22Fast Track\x22\x7d"))
    .absent
    (JVal.jobj (JObj.cons keyScores
      (JVal.jobj (JObj.cons keyOverall (JVal.jnum 82) .nil))
      (JObj.cons keyPriorityRec (JVal.jstr (sChars "Fast Track")) .nil)))
    (by with_unfolding_all rfl)

/-- Counterexample to C2 as stated: a backend-supplied `overall_priority`
of `150` survives validation and reaches the returned outcome and the
webhook response unchanged, although it is not in `[0,100]`. -/
theorem c2_range_counterexample :
    (processTicketWithFullTriage .threw .threw
      (.ok (sChars "\x7b\x22scores\x22:\x7b\x22overall_priority\x22:150\x7d,\x22priority_recommendation\x22:\x22Fast Track\x22\x7d"))
      .absent).analysis =
      some (JVal.jobj (JObj.cons keyScores
        (JVal.jobj (JObj.cons keyOverall (JVal.jnum 150) .nil))
        (JObj.cons keyPriorityRec (JVal.jstr (sChars "Fast Track")) .nil))) ∧
    jget2 (JVal.jobj (JObj.cons keyScores
        (JVal.jobj (JObj.cons keyOverall (JVal.jnum 150) .nil))
        (JObj.cons keyPriorityRec (JVal.jstr (sChars "Fast Track")) .nil)))
      keyScores keyOverall = some (JVal.jnum 150) ∧
    (handlerResponse ⟨none, none, [], []⟩ (processTicketWithFullTriage .threw .threw
      (.ok (sChars "\x7b\x22scores\x22:\x7b\x22overall_priority\x22:150\x7d,\x22priority_recommendation\x22:\x22Fast Track\x22\x7d"))
      .absent)).importance = JVal.jnum 150 ∧
    ¬((150 : ℚ) ≤ 100) := by
  refine ⟨?_, ?_, ?_, by norm_num⟩
  · with_unfolding_all rfl
  · with_unfolding_all rfl
  · with_unfolding_all rfl

/-- C8: when the analysis half of the outcome is absent the handler does
not throw: the recommendation defaults to `On Hold`, the confidence to
`0.0`, and the importance to the numeric `0`; and for every ticket —
including one with no description and no components — the full pipeline
with both priority backends failing produces these defaults. -/
theorem c8_absent_analysis_defaults (issue : Issue) (tr : TriageResult)
    (h : tr.analysis = none) :
    (handlerResponse issue tr).recommendation = JVal.jstr (sChars "On Hold") ∧
    (handlerResponse issue tr).confidence = 0 ∧
    (handlerResponse issue tr).importance = JVal.jnum 0 ∧
    ∀ tg tc : ProvResult,
      (handlerResponse issue (processTicketWithFullTriage tg tc .threw .threw)).recommendation =
        JVal.jstr (sChars "On Hold") ∧
      (handlerResponse issue (processTicketWithFullTriage tg tc .threw .threw)).confidence = 0 ∧
      (handlerResponse issue (processTicketWithFullTriage tg tc .threw .threw)).importance =
        JVal.jnum 0 := by
  refine ⟨?_, ?_, ?_, ?_⟩
  · show jsOrD (tr.analysis.bind (fun a => jget a keyPriorityRec))
      (JVal.jstr (sChars "On Hold")) = JVal.jstr (sChars "On Hold")
    rw [h]
    rfl
  · show (match tr.analysis with | some _ => (3/4 : ℚ) | none => (0 : ℚ)) = (0 : ℚ)
    rw [h]
  · show nullishD ((tr.analysis.bind (fun a => jget a keyScores)).bind
      (fun s => jget s keyOverall)) (JVal.jnum 0) = JVal.jnum 0
    rw [h]
    rfl
  · intro tg tc
    have hn : (processTicketWithFullTriage tg tc .threw .threw).analysis = none := rfl
    refine ⟨?_, ?_, ?_⟩
    · show jsOrD ((processTicketWithFullTriage tg tc .threw .threw).analysis.bind
        (fun a => jget a keyPriorityRec)) (JVal.jstr (sChars "On Hold")) =
        JVal.jstr (sChars "On Hold")
      rw [hn]
      rfl
    · show (match (processTicketWithFullTriage tg tc .threw .threw).analysis with
        | some _ => (3/4 : ℚ) | none => (0 : ℚ)) = (0 : ℚ)
      rw [hn]
    · show nullishD (((processTicketWithFullTriage tg tc .threw .threw).analysis.bind
        (fun a => jget a keyScores)).bind (fun s => jget s keyOverall)) (JVal.jnum 0) =
        JVal.jnum 0
      rw [hn]
      rfl

/-- Witness for C8 at a ticket with no description and no components. -/
theorem c8_absent_analysis_defaults_witness :
    (handlerResponse ⟨none, none, [], []⟩ ⟨none, none, none, none⟩).recommendation =
      JVal.jstr (sChars "On Hold") ∧
    (handlerResponse ⟨none, none, [], []⟩ ⟨none, none, none, none⟩).confidence = 0 ∧
    (handlerResponse ⟨none, none, [], []⟩ ⟨none, none, none, none⟩).importance = JVal.jnum 0 ∧
    ∀ tg tc : ProvResult,
      (handlerResponse ⟨none, none, [], []⟩
        (processTicketWithFullTriage tg tc .threw .threw)).recommendation =
        JVal.jstr (sChars "On Hold") ∧
      (handlerResponse ⟨none, none, [], []⟩
        (processTicketWithFullTriage tg tc .threw .threw)).confidence = 0 ∧
      (handlerResponse ⟨none, none, [], []⟩
        (processTicketWithFullTriage tg tc .threw .threw)).importance = JVal.jnum 0 :=
  c8_absent_analysis_defaults ⟨none, none, [], []⟩ ⟨none, none, none, none⟩ rfl

/-! ### Effort inference -/

theorem pickEffort_five (a1 a2 a3 a4 a5 : ℕ) (r : EffSize × ℕ)
    (hr : pickEffort [(EffSize.XS, a1), (.S, a2), (.M, a3), (.L, a4), (.XL, a5)]
      (.M, 0) = r) :
    (r = (.XS, a1) ∨ r = (.S, a2) ∨ r = (.M, a3) ∨ r = (.L, a4) ∨ r = (.XL, a5) ∨
      r = (.M, 0)) ∧
    (a1 ≤ r.2 ∧ a2 ≤ r.2 ∧ a3 ≤ r.2 ∧ a4 ≤ r.2 ∧ a5 ≤ r.2) ∧
    (a1 = 0 → a2 = 0 → a3 = 0 → a4 = 0 → a5 = 0 → r = (.M, 0)) := by
  subst hr
  refine ⟨?_, ?_, ?_⟩
  · simp only [pickEffort]
    split_ifs <;> simp
  · simp only [pickEffort]
    split_ifs <;> simp_all <;> omega
  · intro h1 h2 h3 h4 h5
    subst h1; subst h2; subst h3; subst h4; subst h5
    rfl

/-- C9: the effort estimator scores the five buckets with weights 10 per
keyword hit, 15 per pattern hit and 5 per component hit, selects a bucket
of maximal score (the default `M` when every bucket scores zero), applies
the override rules on top of the selected bucket, and attaches the chosen
bucket's table score; a ticket titled "Add dark mode toggle to user
preferences" classifies to a small bucket (`XS` or `S`). -/
theorem c9_effort_inference (i : Issue) :
    (∃ e0 : EffSize,
      (estimateEffort i).effort_size = applyOverrides (issueSummary i) e0 ∧
      (∀ e : EffSize,
        bucketScore (issueSummary i) (issueDescription i) (issueComponents i)
          (effortIndicatorsOf e) ≤
        bucketScore (issueSummary i) (issueDescription i) (issueComponents i)
          (effortIndicatorsOf e0)) ∧
      ((∀ e : EffSize,
        bucketScore (issueSummary i) (issueDescription i) (issueComponents i)
          (effortIndicatorsOf e) = 0) → e0 = .M) ∧
      (estimateEffort i).effort_score =
        (effortIndicatorsOf (estimateEffort i).effort_size).score) ∧
    ((estimateEffort ⟨some "Add dark mode toggle to user preferences",
        none, [], []⟩).effort_size = .XS ∨
      (estimateEffort ⟨some "Add dark mode toggle to user preferences",
        none, [], []⟩).effort_size = .S) := by
  constructor
  · have hmap : effortOrder.map (fun e => (e,
        bucketScore (issueSummary i) (issueDescription i) (issueComponents i)
          (effortIndicatorsOf e))) =
        [(EffSize.XS, bucketScore (issueSummary i) (issueDescription i) (issueComponents i)
            xsIndicators),
         (.S, bucketScore (issueSummary i) (issueDescription i) (issueComponents i)
            sIndicators),
         (.M, bucketScore (issueSummary i) (issueDescription i) (issueComponents i)
            mIndicators),
         (.L, bucketScore (issueSummary i) (issueDescription i) (issueComponents i)
            lIndicators),
         (.XL, bucketScore (issueSummary i) (issueDescription i) (issueComponents i)
            xlIndicators)] := rfl
    have hfive := pickEffort_five
      (bucketScore (issueSummary i) (issueDescription i) (issueComponents i) xsIndicators)
      (bucketScore (issueSummary i) (issueDescription i) (issueComponents i) sIndicators)
      (bucketScore (issueSummary i) (issueDescription i) (issueComponents i) mIndicators)
      (bucketScore (issueSummary i) (issueDescription i) (issueComponents i) lIndicators)
      (bucketScore (issueSummary i) (issueDescription i) (issueComponents i) xlIndicators)
      (pickEffort (effortOrder.map (fun e => (e,
        bucketScore (issueSummary i) (issueDescription i) (issueComponents i)
          (effortIndicatorsOf e)))) (.M, 0))
      (by rw [hmap])
    have hfr : bucketScore (issueSummary i) (issueDescription i) (issueComponents i)
        (effortIndicatorsOf (pickEffort (effortOrder.map (fun e => (e,
          bucketScore (issueSummary i) (issueDescription i) (issueComponents i)
            (effortIndicatorsOf e)))) (.M, 0)).1) =
        (pickEffort (effortOrder.map (fun e => (e,
          bucketScore (issueSummary i) (issueDescription i) (issueComponents i)
            (effortIndicatorsOf e)))) (.M, 0)).2 := by
      rcases hfive.1 with h | h | h | h | h | h
      · rw [h]; rfl
      · rw [h]; rfl
      · rw [h]; rfl
      · rw [h]; rfl
      · rw [h]; rfl
      · rw [h]
        have h3 := hfive.2.1.2.2.1
        rw [h] at h3
        exact Nat.le_zero.mp h3
    refine ⟨(pickEffort (effortOrder.map (fun e => (e,
        bucketScore (issueSummary i) (issueDescription i) (issueComponents i)
          (effortIndicatorsOf e)))) (.M, 0)).1, rfl, ?_, ?_, rfl⟩
    · intro e
      rw [hfr]
      cases e
      · exact hfive.2.1.1
      · exact hfive.2.1.2.1
      · exact hfive.2.1.2.2.1
      · exact hfive.2.1.2.2.2.1
      · exact hfive.2.1.2.2.2.2
    · intro hz
      have hall := hfive.2.2 (hz .XS) (hz .S) (hz .M) (hz .L) (hz .XL)
      rw [hall]
  · left
    with_unfolding_all rfl

/-! ### Concrete sanity checks of the pipeline -/

example : calculateOverallPriority
    (mkScores (some 90) (some 85) (some 80) none (some (sChars "S"))) = some 85 := by
  with_unfolding_all rfl

example : calculateOverallPriority
    (mkScores (some 30) (some 40) (some 35) none (some (sChars "L"))) = some 35 := by
  with_unfolding_all rfl

example : calculateOverallPriority
    (mkScores none none none (some 0) (some (sChars "XS"))) = some 15 := by
  with_unfolding_all rfl

example : parseAIResponse (sChars "Sorry, I couldn\x27t analyze this") = none := by
  with_unfolding_all rfl

example :
    parseAIResponse
      (sChars "\x7b\"scores\":\x7b\"overall_priority\":150\x7d,\"priority_recommendation\":\"Fast Track\"\x7d") =
    some (jobj (JObj.cons keyScores (jobj (JObj.cons keyOverall (jnum 150) JObj.nil))
      (JObj.cons keyPriorityRec (jstr (sChars "Fast Track")) JObj.nil))) := by
  with_unfolding_all rfl

example :
    parseAIResponse
      (sChars "```json\n\x7b\"scores\":\x7b\"business_impact\":90,\"strategic_fit\":85,\"cross_client_value\":80,\"effort_size\":\"S\",\"overall_priority\":0\x7d,\"priority_recommendation\":\"Fast Track\"\x7d\n```") =
    some (jobj (JObj.cons keyScores
      (jobj (JObj.cons keyBI (jnum 90) (JObj.cons keySF (jnum 85)
        (JObj.cons keyCCV (jnum 80) (JObj.cons keyEffSize (jstr (sChars "S"))
          (JObj.cons keyOverall (jnum 85) JObj.nil))))))
      (JObj.cons keyPriorityRec (jstr (sChars "Fast Track")) JObj.nil))) := by
  with_unfolding_all rfl

example :
    (estimateEffort ⟨some "Add dark mode toggle to user preferences", none, [], []⟩).effort_size =
      EffSize.XS := by
  with_unfolding_all rfl

example :
    (estimateEffort ⟨none, none, [], []⟩).effort_size = EffSize.M := by
  with_unfolding_all rfl

example : stringifyV (jobj (JObj.cons keyScores (jobj (JObj.cons keyOverall (jnum 0) JObj.nil))
    (JObj.cons keyPriorityRec (jstr (sChars "Standard")) JObj.nil))) =
    sChars "\x7b\"scores\":\x7b\"overall_priority\":0\x7d,\"priority_recommendation\":\"Standard\"\x7d" := by
  with_unfolding_all rfl